import Mathlib

/-!
Verification of the LRcom signaling hub (server source: `index.js`, the
websocket message router and its registries).

The JavaScript source is shallowly embedded: runtime strings are lists of
characters (`Str`), JSON values are the inductive `JVal`, the four shared
tables (`users`, `nameToId`, `rooms`, `pushSubscriptions`) form the `Hub`
record, and every websocket handler becomes a pure function from a hub and
an inbound frame to a hub plus the list of outbound effects (`Out`).

Modelling conventions, recorded once here:
* JS `Map` is an association list with set-replace-in-place semantics
  (`mapSet`), JS `Set` an insertion-ordered duplicate-free list.
* Every modelled channel is open (`ws.readyState === 1` always holds); the
  claims under study quantify over delivered frames, not transport failures.
* `Date.now()` is a `Nat` supplied by the environment; `a - b` on `Nat`
  truncates at zero, which agrees with the JS comparison `a - b > 2000`
  for `a < b` (both are false).
* `crypto.randomBytes(12).toString('hex')` (makeId) is an oracle: freshly
  generated identifiers enter the step functions as explicit parameters.
* JS string `.length`, used only in the two validators, counts UTF-16 code
  units; `utf16Len` reproduces that count.
* A `sendPushToUser` call site is recorded as an `Out.push` effect (the
  invocation of the external push sink); the sink's own behaviour
  (subscription lookup, gateway errors) is outside the hub per the spec.
* JSON arrays are not modelled: no routing check distinguishes an array
  from another object, and `JSON.parse` duplicate keys are resolved before
  the value reaches the router, so object field lists are unique-keyed.
* Frame fields that no claim inspects and that depend on ambient
  configuration or wall-clock time (`atIso` timestamps, TURN config and
  voice statistics inside `hello`/`presence`) are omitted from `Frame`;
  every routing-relevant field is carried.
-/

/-- Runtime JS strings: sequences of Unicode code points. -/
abbrev Str := List Char

/-- Literal embedding of a Lean string constant as a runtime string. -/
def js (s : String) : Str := s.data

/-- JSON values as produced by `JSON.parse`, plus `undefined` for a missing
object field (`msg.foo` on an object without `foo`, or on a non-object). -/
inductive JVal where
  | undefined : JVal
  | null : JVal
  | bool : Bool → JVal
  | num : Int → JVal
  | str : Str → JVal
  | obj : List (String × JVal) → JVal

/-- Field access on an object's (unique-keyed) field list. -/
def jFieldGet : List (String × JVal) → String → JVal
  | [], _ => .undefined
  | (k, v) :: rest, key => if k = key then v else jFieldGet rest key

/-- JS property read `v.key`: `undefined` on non-objects. -/
def jGet (v : JVal) (key : String) : JVal :=
  match v with
  | .obj fields => jFieldGet fields key
  | _ => .undefined

/-- Reifies `typeof v === 'string'`: the carried string, if any. -/
def jAsStr : JVal → Option Str
  | .str s => some s
  | _ => none

/-- Read a field and keep it only when it is a string. -/
def jGetStr (v : JVal) (key : String) : Option Str :=
  jAsStr (jGet v key)

/-- Reifies `v && typeof v === 'object'` (a truthy object). -/
def jTruthyObj : JVal → Bool
  | .obj _ => true
  | _ => false

/-- The whitespace class removed by JS `String.prototype.trim`. -/
def isJsWs (c : Char) : Bool :=
  decide (c.toNat = 9 ∨ c.toNat = 10 ∨ c.toNat = 11 ∨ c.toNat = 12 ∨
    c.toNat = 13 ∨ c.toNat = 32 ∨ c.toNat = 0xA0 ∨ c.toNat = 0xFEFF ∨
    c.toNat = 0x1680 ∨ (0x2000 ≤ c.toNat ∧ c.toNat ≤ 0x200A) ∨
    c.toNat = 0x2028 ∨ c.toNat = 0x2029 ∨ c.toNat = 0x202F ∨
    c.toNat = 0x205F ∨ c.toNat = 0x3000)

/-- JS `s.trim()`. -/
def jsTrim (s : Str) : Str :=
  ((s.dropWhile isJsWs).reverse.dropWhile isJsWs).reverse

/-- JS `s.length`: number of UTF-16 code units. -/
def utf16Len (s : Str) : Nat :=
  (s.map (fun c => if 0x10000 ≤ c.toNat then 2 else 1)).sum

/-- Character class of the source regex `^[a-zA-Z0-9 _\-\.]+$`. -/
def nameChar (c : Char) : Bool :=
  decide (('a' ≤ c ∧ c ≤ 'z') ∨ ('A' ≤ c ∧ c ≤ 'Z') ∨ ('0' ≤ c ∧ c ≤ '9') ∨
    c = ' ' ∨ c = '_' ∨ c = '-' ∨ c = '.')

/-- Source `safeName(input)`. -/
def safeName (input : JVal) : Option Str :=
  match jAsStr input with
  | none => none
  | some s =>
    let trimmed := jsTrim s
    if utf16Len trimmed < 1 ∨ 32 < utf16Len trimmed then none
    else if ¬ trimmed.all nameChar then none
    else some trimmed

/-- Character class of the source regex
`[\u0000-\u0008\u000B\u000C\u000E-\u001F\u007F]` (forbidden in chat). -/
def chatCtrl (c : Char) : Bool :=
  decide (c.toNat ≤ 8 ∨ c.toNat = 11 ∨ c.toNat = 12 ∨
    (14 ≤ c.toNat ∧ c.toNat ≤ 31) ∨ c.toNat = 127)

/-- Source `safeChatText(input)`. -/
def safeChatText (input : JVal) : Option Str :=
  match jAsStr input with
  | none => none
  | some s =>
    let trimmed := jsTrim s
    if utf16Len trimmed < 1 ∨ 500 < utf16Len trimmed then none
    else if trimmed.any chatCtrl then none
    else some trimmed

/-- Splits a string at the first occurrence of `c`: the part before and the
part after, reproducing `indexOf` plus the two `slice` calls around it. -/
def splitAtChar (c : Char) : Str → Option (Str × Str)
  | [] => none
  | x :: xs =>
    if x = c then some ([], xs)
    else (splitAtChar c xs).map (fun p => (x :: p.1, p.2))

/-- Source `parsePrivatePrefix(text)`: the `@name body` and
`@"name with spaces" body` private-message shapes. The argument is already
known to be a string, so the `typeof` guard is discharged by the type. -/
def parsePrivateMsg (text : Str) : Option (Str × Str) :=
  match text with
  | '@' :: rest =>
    match rest with
    | '"' :: afterQuote =>
      match splitAtChar '"' afterQuote with
      | none => none
      | some (toName, afterClose) =>
        match afterClose with
        | ' ' :: _ =>
          let body := jsTrim afterClose
          if toName = [] ∨ body = [] then none else some (toName, body)
        | _ => none
    | _ =>
      match splitAtChar ' ' rest with
      | none => none
      | some (toName, afterSpace) =>
        let body := jsTrim afterSpace
        if toName = [] ∨ body = [] then none else some (toName, body)
  | _ => none

example : parsePrivateMsg (js "@Alice hello") = some (js "Alice", js "hello") := by decide
example : parsePrivateMsg (js "@\"Alice Doe\" hi") = some (js "Alice Doe", js "hi") := by decide
example : parsePrivateMsg (js "@Alice") = none := by decide
example : parsePrivateMsg (js "hello") = none := by decide
example : safeName (.str (js "  Bob ")) = some (js "Bob") := by decide
example : safeName (.str (js "Bob!")) = none := by decide
example : safeChatText (.str (js " hi there ")) = some (js "hi there") := by decide
example : safeChatText (.str (js "a\u0007b")) = none := by decide

/-- Per-connection rate-limit bucket `user._rl = { windowStart, count }`. -/
structure RL where
  windowStart : Nat
  count : Nat
deriving DecidableEq

/-- One entry of `users`: `{ id, name, ws, lastMsgAt, roomId }` plus the
lazily created `_rl` bucket. The channel handle (always open here) and the
unused `lastMsgAt` field carry no routing information and are dropped. -/
structure Session where
  id : Str
  name : Option Str
  roomId : Option Str
  rl : Option RL
deriving DecidableEq

/-- One entry of `rooms`: `{ id, members:Set<string> }`. -/
structure Room where
  id : Str
  members : List Str
deriving DecidableEq

/-- The four shared tables of the hub. -/
structure Hub where
  users : List Session
  nameToId : List (Str × Str)
  rooms : List Room
  pushSubs : List (Str × JVal)

/-- The empty hub at process start. -/
def Hub.init : Hub := ⟨[], [], [], []⟩

/-- JS `Map.get` on an association list. -/
def mapGet (k : Str) : List (Str × α) → Option α
  | [] => none
  | (k', v) :: rest => if k' = k then some v else mapGet k rest

/-- JS `Map.set`: replace in place, else append. -/
def mapSet (k : Str) (v : α) : List (Str × α) → List (Str × α)
  | [] => [(k, v)]
  | (k', v') :: rest =>
    if k' = k then (k, v) :: rest else (k', v') :: mapSet k v rest

/-- JS `Map.delete`. -/
def mapDel (k : Str) : List (Str × α) → List (Str × α)
  | [] => []
  | (k', v') :: rest => if k' = k then rest else (k', v') :: mapDel k rest

/-- JS `Set.add` (insertion order, no duplicates). -/
def setAdd (x : Str) (s : List Str) : List Str :=
  if x ∈ s then s else s ++ [x]

/-- JS `Set.delete`. -/
def setDel (x : Str) (s : List Str) : List Str :=
  s.filter (fun y => y ≠ x)

/-- `users.get(uid)`. -/
def lookupUser (h : Hub) (uid : Str) : Option Session :=
  h.users.find? (fun u => u.id = uid)

/-- `users.set(u.id, u)`. -/
def usersSet (u : Session) : List Session → List Session
  | [] => [u]
  | s :: rest => if s.id = u.id then u :: rest else s :: usersSet u rest

/-- In-place mutation of the session object with identifier `uid` (JS
mutates the record held by the map; the id is never reassigned). -/
def updUser (h : Hub) (uid : Str) (f : Session → Session) : Hub :=
  { h with users := h.users.map (fun s => if s.id = uid then f s else s) }

/-- `rooms.get(rid)` (`getRoom` also guards against a falsy argument, which
callers below re-check through `Option`/truthiness conditions). -/
def findRoom (h : Hub) (rid : Str) : Option Room :=
  h.rooms.find? (fun r => r.id = rid)

/-- Replace the member set of the room object with identifier `rid`. -/
def setRoomMembers (h : Hub) (rid : Str) (ms : List Str) : Hub :=
  { h with rooms := h.rooms.map (fun r => if r.id = rid then ⟨r.id, ms⟩ else r) }

/-- `rooms.delete(rid)`. -/
def delRoom (h : Hub) (rid : Str) : Hub :=
  { h with rooms := h.rooms.filter (fun r => r.id ≠ rid) }

/-- Source `ensureRoom(roomId)`. -/
def ensureRoom (h : Hub) (rid : Str) : Hub :=
  if (findRoom h rid).isSome then h
  else { h with rooms := h.rooms ++ [⟨rid, []⟩] }

/-- Outbound effects: a frame written to the session whose id is `to`, or
an invocation of the push sink for that session (`sendPushToUser` call). -/
inductive Frame where
  | hello : Str → Frame
  | error : String → Frame
  | nameResult : Bool → Option String → Option Str → Frame
  | presence : List (Str × Option Str × Bool) → Frame
  | chat : Option Str → Option Str → Option Str → Option Str → Str → Bool → Frame
  | incomingCall : Str → Option Str → Str → Frame
  | callStartResult : Bool → Option String → Frame
  | callRejected : String → Frame
  | callEnded : String → Frame
  | roomPeers : Str → List (Str × Option Str) → Frame
  | roomPeerJoined : Str → Str → Option Str → Frame
  | roomPeerLeft : Str → Str → Frame
  | signal : Str → Option Str → JVal → Frame

/-- An outbound effect of one handler run. -/
inductive Out where
  | frame : Str → Frame → Out
  | push : Str → String → Out

/-- Truthiness of an optional string field (`null`, `undefined` and the
empty string are falsy). -/
def optStrTruthy : Option Str → Bool
  | none => false
  | some s => s ≠ []

/-- Source `broadcastPresence()`: a presence frame (`{id, name, busy}` per
user, voice statistics elided) to every connected session. -/
def broadcastPresenceOuts (h : Hub) : List Out :=
  let list := h.users.map (fun u => (u.id, u.name, optStrTruthy u.roomId))
  h.users.map (fun u => Out.frame u.id (.presence list))

/-- Source `broadcastSystem(text)`: a System chat to every named session. -/
def broadcastSystemOuts (h : Hub) (text : Str) : List Out :=
  (h.users.filter (fun u => optStrTruthy u.name)).map
    (fun u => Out.frame u.id (.chat none (some (js "System")) none none text false))

/-- Source `broadcastChat(fromUser, text)`: a public chat to every named
session, and a push-sink call for every named session other than the
sender. -/
def broadcastChatOuts (h : Hub) (fu : Session) (text : Str) : List Out :=
  ((h.users.filter (fun u => optStrTruthy u.name)).map (fun u =>
    Out.frame u.id (.chat (some fu.id) fu.name none none text false) ::
      (if u.id = fu.id then [] else [Out.push u.id "lrcom-chat"]))).flatten

/-- Source `sendPrivateChat(fromUser, toUser, text)`. -/
def sendPrivateChatOuts (fu tu : Session) (text : Str) : List Out :=
  [Out.frame fu.id (.chat (some fu.id) fu.name (some tu.id) tu.name text true),
   Out.frame tu.id (.chat (some fu.id) fu.name (some tu.id) tu.name text true),
   Out.push tu.id "lrcom-pm"]

/-- Source `leaveRoom(user)`: clear the leaver's `roomId`, drop it from the
member set, notify the remaining members, and dissolve the room when at
most one member remains (the survivor, if its session exists, loses its
`roomId` and receives `callEnded` with reason `alone`). -/
def leaveRoom (h : Hub) (u : Session) : Hub × List Out :=
  match u.roomId with
  | none => (h, [])
  | some rid =>
    let h1 := updUser h u.id (fun s => { s with roomId := none })
    match findRoom h1 rid with
    | none => (h1, [])
    | some room =>
      let members' := setDel u.id room.members
      let h2 := setRoomMembers h1 rid members'
      let outs := members'.filterMap (fun mid =>
        (lookupUser h2 mid).map (fun m => Out.frame m.id (.roomPeerLeft rid u.id)))
      if members'.length ≤ 1 then
        match members'.head? with
        | some lastId =>
          match lookupUser h2 lastId with
          | some last =>
            let h3 := updUser h2 lastId (fun s => { s with roomId := none })
            (delRoom h3 rid, outs ++ [Out.frame last.id (.callEnded "alone")])
          | none => (delRoom h2 rid, outs)
        | none => (delRoom h2 rid, outs)
      else (h2, outs)

/-- Source `closeUser(userId)`: synthesize a hangup, drop the session, its
push subscription and (when still bound to it) its name, then announce the
departure. -/
def closeUser (h : Hub) (uid : Str) : Hub × List Out :=
  match lookupUser h uid with
  | none => (h, [])
  | some u =>
    let step := if u.roomId.isSome then leaveRoom h u else (h, [])
    let h2 := { step.1 with users := step.1.users.filter (fun s => s.id ≠ uid) }
    let h3 := { h2 with pushSubs := mapDel uid h2.pushSubs }
    let nameIdx :=
      match u.name with
      | some n =>
        if optStrTruthy u.name ∧ mapGet n h3.nameToId = some uid
        then mapDel n h3.nameToId else h3.nameToId
      | none => h3.nameToId
    let h4 := { h3 with nameToId := nameIdx }
    let outs2 :=
      if optStrTruthy u.name then
        broadcastSystemOuts h4 ((u.name.getD []) ++ js " left.")
      else []
    (h4, step.2 ++ outs2 ++ broadcastPresenceOuts h4)

/-- Source `rateLimit(user, nowMs)`: the updated bucket and the verdict
(`true` means the frame may be dispatched). -/
def rateLimitStep (rl0 : Option RL) (now : Nat) : RL × Bool :=
  let w0 := match rl0 with
    | some w => w
    | none => { windowStart := now, count := 0 }
  let w1 := if 2000 < now - w0.windowStart then { windowStart := now, count := 0 } else w0
  let w2 := { w1 with count := w1.count + 1 }
  (w2, w2.count ≤ 20)

/-- The name index after the `setName` handler's release-old-name step
(`if (user.name && nameToId.get(user.name) === userId) nameToId.delete`). -/
def releasedIndex (h : Hub) (uid : Str) (user : Session) : List (Str × Str) :=
  match user.name with
  | some old =>
    if old ≠ [] ∧ mapGet old h.nameToId = some uid
    then mapDel old h.nameToId else h.nameToId
  | none => h.nameToId

/-- The `setName` branch of the message handler. -/
def handleSetName (h : Hub) (uid : Str) (user : Session) (msg : JVal) : Hub × List Out :=
  match safeName (jGet msg "name") with
  | none => (h, [Out.frame uid (.nameResult false (some "invalid") none)])
  | some name =>
    if (match mapGet name h.nameToId with
        | some ex => decide (ex ≠ []) && decide (ex ≠ uid)
        | none => false) then
      (h, [Out.frame uid (.nameResult false (some "taken") none)])
    else
      let h1 := { h with nameToId := releasedIndex h uid user }
      let h2 := updUser h1 uid (fun s => { s with name := some name })
      let h3 := { h2 with nameToId := mapSet name uid h2.nameToId }
      (h3, Out.frame uid (.nameResult true none (some name)) ::
        (broadcastSystemOuts h3 (name ++ js " joined.") ++ broadcastPresenceOuts h3))

/-- The `callStart` branch of the message handler. -/
def handleCallStart (h : Hub) (freshRoomId uid : Str) (user : Session) (msg : JVal) :
    Hub × List Out :=
  match jAsStr (jGet msg "to") with
  | none => (h, [Out.frame uid (.callStartResult false (some "not_found"))])
  | some toId =>
    if toId = [] then (h, [Out.frame uid (.callStartResult false (some "not_found"))])
    else
      match lookupUser h toId with
      | none => (h, [Out.frame uid (.callStartResult false (some "not_found"))])
      | some callee =>
        if toId = uid then (h, [Out.frame uid (.callStartResult false (some "self"))])
        else if ¬ optStrTruthy callee.name then
          (h, [Out.frame uid (.callStartResult false (some "not_ready"))])
        else if optStrTruthy callee.roomId then
          (h, [Out.frame uid (.callStartResult false (some "busy"))])
        else
          let rid := user.roomId.getD freshRoomId
          let h1 := ensureRoom h rid
          let room := (findRoom h1 rid).getD ⟨rid, []⟩
          let h2 := setRoomMembers h1 rid (setAdd callee.id (setAdd user.id room.members))
          let h3 := updUser h2 uid (fun s => { s with roomId := some rid })
          let h4 := updUser h3 callee.id (fun s => { s with roomId := some rid })
          (h4, [Out.frame callee.id (.incomingCall user.id user.name rid),
                Out.push callee.id "lrcom-call",
                Out.frame uid (.callStartResult true none)] ++ broadcastPresenceOuts h4)

/-- The `callReject` branch of the message handler. -/
def handleCallReject (h : Hub) (uid : Str) (user : Session) (msg : JVal) : Hub × List Out :=
  let rid? :=
    match jAsStr (jGet msg "roomId") with
    | some r => some r
    | none => user.roomId
  let caller? :=
    match jAsStr (jGet msg "from") with
    | some f => if f ≠ [] then lookupUser h f else none
    | none => none
  let outs1 :=
    match caller? with
    | some c => [Out.frame c.id (.callRejected "rejected")]
    | none => []
  let step :=
    if (match rid? with
        | some r => decide (r ≠ []) && decide (user.roomId = some r)
        | none => false)
    then leaveRoom h user
    else (updUser h uid (fun s => { s with roomId := none }), [])
  (step.1, outs1 ++ step.2 ++ broadcastPresenceOuts step.1)

/-- The `callAccept` branch of the message handler. -/
def handleCallAccept (h : Hub) (uid : Str) (user : Session) (msg : JVal) : Hub × List Out :=
  let rid? :=
    match jAsStr (jGet msg "roomId") with
    | some r => some r
    | none => user.roomId
  let caller? :=
    match jAsStr (jGet msg "from") with
    | some f => if f ≠ [] then lookupUser h f else none
    | none => none
  let cleared := updUser h uid (fun s => { s with roomId := none })
  match caller?, rid? with
  | some caller, some rid =>
    if rid ≠ [] ∧ caller.roomId = some rid ∧ user.roomId = some rid then
      match findRoom h rid with
      | none => (cleared, broadcastPresenceOuts cleared)
      | some room =>
        let others := room.members.filter (fun mid => mid ≠ uid)
        let joinOuts := others.filterMap (fun mid =>
          (lookupUser h mid).map
            (fun m => Out.frame m.id (.roomPeerJoined rid user.id user.name)))
        let peers := others.filterMap (fun mid =>
          (lookupUser h mid).map (fun u2 => (u2.id, u2.name)))
        (h, joinOuts ++ [Out.frame uid (.roomPeers rid peers)])
    else (cleared, broadcastPresenceOuts cleared)
  | _, _ => (cleared, broadcastPresenceOuts cleared)

/-- The `signal` branch of the message handler. -/
def handleSignal (h : Hub) (user : Session) (msg : JVal) : Hub × List Out :=
  match jAsStr (jGet msg "to") with
  | none => (h, [])
  | some toId =>
    if toId = [] then (h, [])
    else
      match lookupUser h toId with
      | none => (h, [])
      | some peer =>
        if (match user.roomId with
            | some r => decide (r ≠ []) && decide (peer.roomId = some r)
            | none => false) then
          (h, [Out.frame peer.id (.signal user.id user.name (jGet msg "payload"))])
        else (h, [])

/-- The `chatSend` branch of the message handler. -/
def handleChatSend (h : Hub) (uid : Str) (user : Session) (msg : JVal) : Hub × List Out :=
  match safeChatText (jGet msg "text") with
  | none => (h, [Out.frame uid (.error "BAD_CHAT")])
  | some raw =>
    let pm := if (js "@reply [").isPrefixOf raw then none else parsePrivateMsg raw
    match pm with
    | some (toName, body) =>
      let toUser? :=
        match mapGet toName h.nameToId with
        | some tid => if tid ≠ [] then lookupUser h tid else none
        | none => none
      match toUser? with
      | none => (h, [Out.frame uid (.error "PM_NOT_FOUND")])
      | some tu =>
        if ¬ optStrTruthy tu.name then (h, [Out.frame uid (.error "PM_NOT_FOUND")])
        else if tu.id = uid then (h, [Out.frame uid (.error "PM_SELF")])
        else (h, sendPrivateChatOuts user tu body)
    | none => (h, broadcastChatOuts h user raw)

/-- Discriminants of the `msg.type` if-chain of `ws.on('message')`. -/
inductive MsgType where
  | pushSub | pushUnsub | setName | callStart | callReject | callAccept
  | signalT | callHangup | chatSend | unknown
deriving DecidableEq

/-- The string comparisons of the `msg.type` if-chain, in source order (the
compared literals are pairwise distinct, so the chain order is immaterial
and only the classification matters). -/
def msgTypeOf (ty : Str) : MsgType :=
  if ty = js "pushSubscribe" then .pushSub
  else if ty = js "pushUnsubscribe" then .pushUnsub
  else if ty = js "setName" then .setName
  else if ty = js "callStart" then .callStart
  else if ty = js "callReject" then .callReject
  else if ty = js "callAccept" then .callAccept
  else if ty = js "signal" then .signalT
  else if ty = js "callHangup" then .callHangup
  else if ty = js "chatSend" then .chatSend
  else .unknown

/-- The body of `ws.on('message')` after the rate check and JSON decode:
type discrimination, the any-state push frames, `setName`, the `NO_NAME`
gate, and the named-state branches. -/
def dispatch (pushEnabled : Bool) (freshRoomId : Str) (h : Hub) (uid : Str) (msg : JVal) :
    Hub × List Out :=
  match lookupUser h uid with
  | none => (h, [])
  | some user =>
    match jGetStr msg "type" with
    | none => (h, [Out.frame uid (.error "BAD_MESSAGE")])
    | some ty =>
      match msgTypeOf ty with
      | .pushSub =>
        if ¬ pushEnabled then (h, [])
        else if jTruthyObj (jGet msg "subscription") then
          ({ h with pushSubs := mapSet uid (jGet msg "subscription") h.pushSubs }, [])
        else (h, [])
      | .pushUnsub => ({ h with pushSubs := mapDel uid h.pushSubs }, [])
      | .setName => handleSetName h uid user msg
      | mt =>
        if ¬ optStrTruthy user.name then (h, [Out.frame uid (.error "NO_NAME")])
        else
          match mt with
          | .callStart => handleCallStart h freshRoomId uid user msg
          | .callReject => handleCallReject h uid user msg
          | .callAccept => handleCallAccept h uid user msg
          | .signalT => handleSignal h user msg
          | .callHangup =>
            let step := leaveRoom h user
            (step.1, step.2 ++ broadcastPresenceOuts step.1)
          | .chatSend => handleChatSend h uid user msg
          | _ => (h, [Out.frame uid (.error "UNKNOWN_TYPE")])

/-- One inbound transport frame: either text that fails `JSON.parse`, or
the parsed value. -/
inductive ClientData where
  | malformed : ClientData
  | value : JVal → ClientData

/-- The whole of `ws.on('message')`: rate limit, decode, dispatch. -/
def handleData (pushEnabled : Bool) (freshRoomId : Str) (h : Hub) (uid : Str) (now : Nat)
    (d : ClientData) : Hub × List Out :=
  match lookupUser h uid with
  | none => (h, [])
  | some user =>
    let rlv := rateLimitStep user.rl now
    let h1 := updUser h uid (fun s => { s with rl := some rlv.1 })
    if ¬ rlv.2 then (h1, [Out.frame uid (.error "RATE_LIMIT")])
    else
      match d with
      | .malformed => (h1, [Out.frame uid (.error "BAD_JSON")])
      | .value msg => dispatch pushEnabled freshRoomId h1 uid msg

/-- `wss.on('connection')`: create the session and send `hello` (TURN and
voice payload elided). -/
def connect (h : Hub) (newId : Str) : Hub × List Out :=
  ({ h with users := usersSet ⟨newId, none, none, none⟩ h.users },
   [Out.frame newId (.hello newId)])

/-- Hub states reachable from process start by any interleaving of
connection accepts, inbound frames and disconnects, for a fixed push-sink
configuration. -/
inductive Reachable (pushEnabled : Bool) : Hub → Prop where
  | init : Reachable pushEnabled Hub.init
  | connect (h : Hub) (newId : Str) : Reachable pushEnabled h →
      Reachable pushEnabled (connect h newId).1
  | message (h : Hub) (freshRoomId uid : Str) (now : Nat) (d : ClientData) :
      Reachable pushEnabled h →
      Reachable pushEnabled (handleData pushEnabled freshRoomId h uid now d).1
  | close (h : Hub) (uid : Str) : Reachable pushEnabled h →
      Reachable pushEnabled (closeUser h uid).1

/-- All session identifiers in the hub are non-empty (true of every state
the server builds, since `makeId` returns 24 hex digits; stated as a
hypothesis where a claim's truthiness checks meet identifier lookups). -/
def idsOk (h : Hub) : Bool :=
  h.users.all (fun u => decide (u.id ≠ []))

theorem lookupUser_nil_eq_none (h : Hub) (hids : idsOk h = true) :
    lookupUser h [] = none := by
  simp only [idsOk, List.all_eq_true, decide_eq_true_eq] at hids
  simp only [lookupUser, List.find?_eq_none, decide_eq_true_eq]
  intro u hu
  exact hids u hu

/-- Banned chat code points exactly as claim C6 enumerates them:
`U+0000..U+0008`, `U+000B`, `U+000C`, `U+000E..U+001F`, `U+007F`. -/
def chatBannedSpec (c : Char) : Prop :=
  c.toNat ≤ 0x8 ∨ c.toNat = 0xB ∨ c.toNat = 0xC ∨
    (0xE ≤ c.toNat ∧ c.toNat ≤ 0x1F) ∨ c.toNat = 0x7F

instance : DecidablePred chatBannedSpec := fun c => by
  unfold chatBannedSpec
  infer_instance

theorem chatCtrl_iff_banned (c : Char) : chatCtrl c = true ↔ chatBannedSpec c := by
  simp [chatCtrl, chatBannedSpec]

/-- Claim C6: `safeChatText` returns the trimmed string exactly when the
input is a string whose trimmed form has length between 1 and 500 and
contains none of the enumerated control characters; otherwise it fails. -/
theorem claim_C6 (input : JVal) (t : Str) :
    safeChatText input = some t ↔
      ∃ s, input = JVal.str s ∧ t = jsTrim s ∧
        1 ≤ utf16Len (jsTrim s) ∧ utf16Len (jsTrim s) ≤ 500 ∧
        ∀ c ∈ jsTrim s, ¬ chatBannedSpec c := by
  constructor
  · intro hres
    cases input with
    | str s =>
      simp only [safeChatText, jAsStr] at hres
      refine ⟨s, rfl, ?_⟩
      split at hres
      · exact absurd hres (by simp)
      · split at hres
        · exact absurd hres (by simp)
        · rename_i hlen hctl
          simp only [Option.some.injEq] at hres
          push_neg at hlen
          refine ⟨hres.symm, hlen.1, hlen.2, ?_⟩
          intro c hc hb
          exact hctl (List.any_eq_true.mpr ⟨c, hc, (chatCtrl_iff_banned c).mpr hb⟩)
    | undefined => simp [safeChatText, jAsStr] at hres
    | null => simp [safeChatText, jAsStr] at hres
    | bool b => simp [safeChatText, jAsStr] at hres
    | num n => simp [safeChatText, jAsStr] at hres
    | obj fs => simp [safeChatText, jAsStr] at hres
  · rintro ⟨s, rfl, rfl, hlo, hhi, hclean⟩
    simp only [safeChatText, jAsStr]
    rw [if_neg (by omega)]
    rw [if_neg ?_]
    intro hany
    obtain ⟨c, hc, hcc⟩ := List.any_eq_true.mp hany
    exact hclean c hc ((chatCtrl_iff_banned c).mp hcc)

/-- Witness for claim C6 at a concrete input. -/
theorem claim_C6_witness :
    safeChatText (.str (js "  hi\nthere ")) = some (js "hi\nthere") :=
  (claim_C6 (.str (js "  hi\nthere ")) (js "hi\nthere")).mpr
    ⟨js "  hi\nthere ", rfl, by decide, by decide, by decide, by decide⟩

theorem msgTypeOf_signal : msgTypeOf (js "signal") = .signalT := by decide

/-- Spec-side routing rule for `signal`, following claim C1 word for word:
deliver `{type:signal, from, fromName, payload}` to `B` exactly when `B`
exists with `B.id = to`, the sender's `roomId` is non-empty and equals
`B`'s `roomId`; otherwise send nothing to anyone. -/
def signalSpecOuts (h : Hub) (user : Session) (msg : JVal) : List Out :=
  match jAsStr (jGet msg "to") with
  | none => []
  | some toId =>
    match lookupUser h toId with
    | none => []
    | some peer =>
      match user.roomId with
      | none => []
      | some r =>
        if r ≠ [] ∧ peer.roomId = some r then
          [Out.frame peer.id (.signal user.id user.name (jGet msg "payload"))]
        else []

/-- Claim C1: for a named session, a `signal` frame is forwarded to the
target exactly under the same-non-empty-room condition, with no state
change and no other output (silent drop otherwise). -/
theorem claim_C1 (pe : Bool) (fresh : Str) (h : Hub) (uid : Str) (msg : JVal) (user : Session)
    (hu : lookupUser h uid = some user)
    (hname : optStrTruthy user.name = true)
    (hty : jGetStr msg "type" = some (js "signal"))
    (hids : idsOk h = true) :
    dispatch pe fresh h uid msg = (h, signalSpecOuts h user msg) := by
  simp only [dispatch, hu, hty, msgTypeOf_signal, hname, not_true, if_false]
  simp only [handleSignal, signalSpecOuts]
  cases hto : jAsStr (jGet msg "to") with
  | none => rfl
  | some toId =>
    by_cases hnil : toId = []
    · subst hnil
      simp [lookupUser_nil_eq_none h hids]
    · cases hlk : lookupUser h toId with
      | none => simp [hnil, hlk]
      | some peer =>
        cases hrm : user.roomId with
        | none => simp [hnil, hlk, hrm]
        | some r =>
          by_cases hr : r ≠ [] ∧ peer.roomId = some r
          · simp [hnil, hlk, hrm, hr.1, hr.2]
          · have hb : (decide (r ≠ []) && decide (peer.roomId = some r)) = false := by
              rcases Decidable.not_and_iff_or_not.mp hr with hn | hn <;> simp [hn]
            simp [hnil, hlk, hrm, hb, if_neg hr]

/-- Concrete two-member-room hub used by the claim C1 witness. -/
def wHubRoom : Hub :=
  ⟨[⟨js "a", some (js "A"), some (js "r"), none⟩,
    ⟨js "b", some (js "B"), some (js "r"), none⟩],
   [(js "A", js "a"), (js "B", js "b")],
   [⟨js "r", [js "a", js "b"]⟩], []⟩

/-- Concrete signal frame used by the claim C1 witness. -/
def wSigMsg : JVal :=
  .obj [("type", .str (js "signal")), ("to", .str (js "b")), ("payload", .null)]

/-- Witness for claim C1: a named caller in a shared room, with every
hypothesis discharged at the concrete input. -/
theorem claim_C1_witness :
    lookupUser wHubRoom (js "a") = some ⟨js "a", some (js "A"), some (js "r"), none⟩ ∧
    optStrTruthy (some (js "A")) = true ∧
    jGetStr wSigMsg "type" = some (js "signal") ∧
    idsOk wHubRoom = true ∧
    dispatch false (js "f") wHubRoom (js "a") wSigMsg =
      (wHubRoom, signalSpecOuts wHubRoom ⟨js "a", some (js "A"), some (js "r"), none⟩ wSigMsg) :=
  ⟨rfl, rfl, rfl, rfl,
    claim_C1 false (js "f") wHubRoom (js "a") wSigMsg
      ⟨js "a", some (js "A"), some (js "r"), none⟩ rfl rfl rfl rfl⟩

theorem msgTypeOf_eq_pushSub {ty : Str} :
    msgTypeOf ty = .pushSub ↔ ty = js "pushSubscribe" := by
  constructor
  · intro hmt
    unfold msgTypeOf at hmt
    split_ifs at hmt <;> simp_all
  · intro hmt
    subst hmt
    decide

theorem msgTypeOf_eq_pushUnsub {ty : Str} :
    msgTypeOf ty = .pushUnsub ↔ ty = js "pushUnsubscribe" := by
  constructor
  · intro hmt
    unfold msgTypeOf at hmt
    split_ifs at hmt <;> simp_all
  · intro hmt
    subst hmt
    decide

theorem msgTypeOf_eq_setName {ty : Str} :
    msgTypeOf ty = .setName ↔ ty = js "setName" := by
  constructor
  · intro hmt
    unfold msgTypeOf at hmt
    split_ifs at hmt <;> simp_all
  · intro hmt
    subst hmt
    decide

/-- Claim C7: `pushSubscribe` and `pushUnsubscribe` are accepted in every
state with no reply (the former stores the blob only when the push sink is
enabled and the blob is a truthy object, the latter deletes it); for a
nameless session every other typed frame except `setName` is answered with
`NO_NAME` and leaves the hub unchanged. -/
theorem claim_C7 (pe : Bool) (fresh : Str) (h : Hub) (uid : Str) (msg : JVal) (user : Session)
    (hu : lookupUser h uid = some user) :
    (jGetStr msg "type" = some (js "pushSubscribe") →
      dispatch pe fresh h uid msg =
        (if pe = true ∧ jTruthyObj (jGet msg "subscription") = true
         then { h with pushSubs := mapSet uid (jGet msg "subscription") h.pushSubs }
         else h, [])) ∧
    (jGetStr msg "type" = some (js "pushUnsubscribe") →
      dispatch pe fresh h uid msg = ({ h with pushSubs := mapDel uid h.pushSubs }, [])) ∧
    (∀ ty, jGetStr msg "type" = some ty → user.name = none →
      ty ≠ js "pushSubscribe" → ty ≠ js "pushUnsubscribe" → ty ≠ js "setName" →
      dispatch pe fresh h uid msg = (h, [Out.frame uid (.error "NO_NAME")])) := by
  refine ⟨?_, ?_, ?_⟩
  · intro hty
    have hmt : msgTypeOf (js "pushSubscribe") = .pushSub := by decide
    simp only [dispatch, hu, hty, hmt]
    cases pe with
    | false => simp
    | true =>
      cases hobj : jTruthyObj (jGet msg "subscription") with
      | false => simp [hobj]
      | true => simp [hobj]
  · intro hty
    have hmt : msgTypeOf (js "pushUnsubscribe") = .pushUnsub := by decide
    simp only [dispatch, hu, hty, hmt]
  · intro ty hty hnm hne1 hne2 hne3
    have hgate : optStrTruthy user.name = false := by simp [hnm, optStrTruthy]
    cases hmt : msgTypeOf ty with
    | pushSub => exact absurd (msgTypeOf_eq_pushSub.mp hmt) hne1
    | pushUnsub => exact absurd (msgTypeOf_eq_pushUnsub.mp hmt) hne2
    | setName => exact absurd (msgTypeOf_eq_setName.mp hmt) hne3
    | callStart => simp [dispatch, hu, hty, hmt, hgate]
    | callReject => simp [dispatch, hu, hty, hmt, hgate]
    | callAccept => simp [dispatch, hu, hty, hmt, hgate]
    | signalT => simp [dispatch, hu, hty, hmt, hgate]
    | callHangup => simp [dispatch, hu, hty, hmt, hgate]
    | chatSend => simp [dispatch, hu, hty, hmt, hgate]
    | unknown => simp [dispatch, hu, hty, hmt, hgate]

/-- Concrete anonymous-session hub used by the claim C7 witness. -/
def wHubAnon : Hub := ⟨[⟨js "a", none, none, none⟩], [], [], []⟩

/-- Concrete chat frame used by the claim C7 witness. -/
def wChatAnonMsg : JVal := .obj [("type", .str (js "chatSend")), ("text", .str (js "hi"))]

/-- Witness for claim C7: an anonymous session sending `chatSend` gets
`NO_NAME` and changes nothing. -/
theorem claim_C7_witness :
    lookupUser wHubAnon (js "a") = some ⟨js "a", none, none, none⟩ ∧
    jGetStr wChatAnonMsg "type" = some (js "chatSend") ∧
    dispatch true (js "f") wHubAnon (js "a") wChatAnonMsg =
      (wHubAnon, [Out.frame (js "a") (.error "NO_NAME")]) :=
  ⟨rfl, rfl,
    (claim_C7 true (js "f") wHubAnon (js "a") wChatAnonMsg ⟨js "a", none, none, none⟩ rfl).2.2
      (js "chatSend") rfl rfl (by decide) (by decide) (by decide)⟩

/-- Claim C9: a named session's `callReject` carrying any existing session
id in `from` makes the hub send that session `callRejected`, with no check
of any prior invitation or shared room (none of the hypotheses below
relate `f` to the rejecter). -/
theorem claim_C9 (pe : Bool) (fresh : Str) (h : Hub) (uid : Str) (msg : JVal)
    (user c : Session) (f : Str)
    (hu : lookupUser h uid = some user)
    (hname : optStrTruthy user.name = true)
    (hty : jGetStr msg "type" = some (js "callReject"))
    (hf : jAsStr (jGet msg "from") = some f)
    (hfne : f ≠ [])
    (hc : lookupUser h f = some c) :
    (dispatch pe fresh h uid msg).2.head? =
      some (Out.frame c.id (.callRejected "rejected")) := by
  have hmt : msgTypeOf (js "callReject") = .callReject := by decide
  simp only [dispatch, hu, hty, hmt, hname, not_true, if_false]
  simp [handleCallReject, hf, hfne, hc]

/-- Concrete hub used by the claim C9 witness: `b` rejects naming `a`,
whom nothing links to `b`. -/
def wHubRej : Hub :=
  ⟨[⟨js "a", some (js "A"), none, none⟩, ⟨js "b", some (js "B"), none, none⟩],
   [(js "A", js "a"), (js "B", js "b")], [], []⟩

/-- Concrete reject frame used by the claim C9 witness. -/
def wRejMsg : JVal := .obj [("type", .str (js "callReject")), ("from", .str (js "a"))]

/-- Witness for claim C9 at a concrete input. -/
theorem claim_C9_witness :
    lookupUser wHubRej (js "b") = some ⟨js "b", some (js "B"), none, none⟩ ∧
    optStrTruthy (some (js "B")) = true ∧
    jGetStr wRejMsg "type" = some (js "callReject") ∧
    jAsStr (jGet wRejMsg "from") = some (js "a") ∧
    lookupUser wHubRej (js "a") = some ⟨js "a", some (js "A"), none, none⟩ ∧
    (dispatch false (js "f") wHubRej (js "b") wRejMsg).2.head? =
      some (Out.frame (js "a") (.callRejected "rejected")) :=
  ⟨rfl, rfl, rfl, rfl, rfl,
    claim_C9 false (js "f") wHubRej (js "b") wRejMsg
      ⟨js "b", some (js "B"), none, none⟩ ⟨js "a", some (js "A"), none, none⟩ (js "a")
      rfl rfl rfl rfl (by decide) rfl⟩

theorem mapGet_mapSet_self {α : Type} (k : Str) (v : α) (m : List (Str × α)) :
    mapGet k (mapSet k v m) = some v := by
  induction m with
  | nil => simp [mapSet, mapGet]
  | cons p rest ih =>
    by_cases hk : p.1 = k
    · simp [mapSet, hk, mapGet]
    · simp [mapSet, hk, mapGet, ih]

theorem mapGet_mapSet_ne {α : Type} (k q : Str) (v : α) (m : List (Str × α)) (hne : q ≠ k) :
    mapGet q (mapSet k v m) = mapGet q m := by
  induction m with
  | nil => simp [mapSet, mapGet, Ne.symm hne]
  | cons p rest ih =>
    by_cases hk : p.1 = k
    · simp [mapSet, hk, mapGet, Ne.symm hne]
    · by_cases hq : p.1 = q
      · simp [mapSet, hk, mapGet, hq, hne]
      · simp [mapSet, hk, mapGet, hq, ih]

theorem mapGet_mapDel_ne {α : Type} (k q : Str) (m : List (Str × α)) (hne : q ≠ k) :
    mapGet q (mapDel k m) = mapGet q m := by
  induction m with
  | nil => simp [mapDel]
  | cons p rest ih =>
    by_cases hk : p.1 = k
    · simp [mapDel, hk, mapGet, Ne.symm hne]
    · by_cases hq : p.1 = q
      · simp [mapDel, hk, mapGet, hq, hne]
      · simp [mapDel, hk, mapGet, hq, ih]

theorem mapGet_eq_none_of_not_mem {α : Type} (k : Str) (m : List (Str × α))
    (hnm : k ∉ m.map Prod.fst) : mapGet k m = none := by
  induction m with
  | nil => rfl
  | cons p rest ih =>
    simp only [List.map_cons, List.mem_cons] at hnm
    push_neg at hnm
    simp only [mapGet, if_neg (fun h => hnm.1 (Eq.symm h))]
    exact ih hnm.2

/-- Number of index entries under key `k`. -/
def countKey {α : Type} : Str → List (Str × α) → Nat
  | _, [] => 0
  | k, p :: rest => (if p.1 = k then 1 else 0) + countKey k rest

theorem countKey_eq_zero_of_not_mem {α : Type} (k : Str) (m : List (Str × α))
    (hnm : k ∉ m.map Prod.fst) : countKey k m = 0 := by
  induction m with
  | nil => rfl
  | cons p rest ih =>
    simp only [List.map_cons, List.mem_cons] at hnm
    push_neg at hnm
    have hpk : ¬ p.1 = k := fun hcontra => hnm.1 (Eq.symm hcontra)
    simp only [countKey, if_neg hpk, Nat.zero_add]
    exact ih hnm.2

theorem countKey_mapSet {α : Type} (k : Str) (v : α) (m : List (Str × α))
    (hnd : (m.map Prod.fst).Nodup) : countKey k (mapSet k v m) = 1 := by
  induction m with
  | nil => simp [mapSet, countKey]
  | cons p rest ih =>
    simp only [List.map_cons, List.nodup_cons] at hnd
    by_cases hk : p.1 = k
    · have h0 : countKey k rest = 0 :=
        countKey_eq_zero_of_not_mem k rest (hk ▸ hnd.1)
      simp [mapSet, if_pos hk, countKey, h0]
    · simp only [mapSet, if_neg hk, countKey, if_neg hk, Nat.zero_add]
      exact ih hnd.2

theorem keys_mapDel_sub {α : Type} (k : Str) (m : List (Str × α)) :
    ((mapDel k m).map Prod.fst).Sublist (m.map Prod.fst) := by
  induction m with
  | nil => simp [mapDel]
  | cons p rest ih =>
    by_cases hk : p.1 = k
    · simp only [mapDel, if_pos hk, List.map_cons]
      exact (List.sublist_cons_self _ _)
    · simp only [mapDel, if_neg hk, List.map_cons]
      exact ih.cons₂ p.1

theorem keysNodup_mapDel {α : Type} (k : Str) (m : List (Str × α))
    (hnd : (m.map Prod.fst).Nodup) : ((mapDel k m).map Prod.fst).Nodup :=
  (keys_mapDel_sub k m).nodup hnd

theorem mem_mapSet {α : Type} {q : Str × α} (k : Str) (v : α) (m : List (Str × α))
    (hq : q ∈ mapSet k v m) : q ∈ m ∨ q = (k, v) := by
  induction m with
  | nil =>
    right
    simpa [mapSet] using hq
  | cons p rest ih =>
    by_cases hk : p.1 = k
    · simp only [mapSet, if_pos hk, List.mem_cons] at hq
      rcases hq with h1 | h1
      · right; exact h1
      · left; exact List.mem_cons_of_mem _ h1
    · simp only [mapSet, if_neg hk, List.mem_cons] at hq
      rcases hq with h1 | h1
      · left
        rw [h1]
        exact List.mem_cons_self _ _
      · rcases ih h1 with h2 | h2
        · left; exact List.mem_cons_of_mem _ h2
        · right; exact h2

theorem keysNodup_mapSet {α : Type} (k : Str) (v : α) (m : List (Str × α))
    (hnd : (m.map Prod.fst).Nodup) : ((mapSet k v m).map Prod.fst).Nodup := by
  induction m with
  | nil => simp [mapSet]
  | cons p rest ih =>
    simp only [List.map_cons, List.nodup_cons] at hnd
    by_cases hk : p.1 = k
    · simp only [mapSet, if_pos hk, List.map_cons, List.nodup_cons]
      exact ⟨hk ▸ hnd.1, hnd.2⟩
    · simp only [mapSet, if_neg hk, List.map_cons, List.nodup_cons]
      refine ⟨?_, ih hnd.2⟩
      intro hmem
      rcases List.mem_map.mp hmem with ⟨q, hq, hq1⟩
      rcases mem_mapSet k v rest hq with hcase | hcase
      · exact hnd.1 (hq1 ▸ List.mem_map_of_mem Prod.fst hcase)
      · apply hk
        rw [← hq1, hcase]

theorem lookupUser_updUser_self (h : Hub) (uid : Str) (f : Session → Session)
    (hid : ∀ s, (f s).id = s.id) :
    lookupUser (updUser h uid f) uid = (lookupUser h uid).map f := by
  simp only [lookupUser, updUser, List.find?_map]
  have hpred : (fun s => decide (s.id = uid)) ∘ (fun s => if s.id = uid then f s else s) =
      fun s => decide (s.id = uid) := by
    funext s
    by_cases hs : s.id = uid
    · simp [hs, hid]
    · simp [hs]
  rw [hpred]
  cases hfind : h.users.find? (fun s => decide (s.id = uid)) with
  | none => rfl
  | some s0 =>
    have hs0 : s0.id = uid := by simpa using List.find?_some hfind
    simp [hs0]

theorem lookupUser_updUser_other (h : Hub) (uid x : Str) (f : Session → Session)
    (hid : ∀ s, (f s).id = s.id) (hne : x ≠ uid) :
    lookupUser (updUser h uid f) x = lookupUser h x := by
  simp only [lookupUser, updUser, List.find?_map]
  have hpred : (fun s => decide (s.id = x)) ∘ (fun s => if s.id = uid then f s else s) =
      fun s => decide (s.id = x) := by
    funext s
    by_cases hs : s.id = uid
    · simp [hs, hid, Ne.symm hne]
    · simp [hs]
  rw [hpred]
  cases hfind : h.users.find? (fun s => decide (s.id = x)) with
  | none => rfl
  | some s0 =>
    have hs0 : s0.id = x := by simpa using List.find?_some hfind
    simp [hs0, hne]

theorem safeName_ne_nil {v : JVal} {N : Str} (hs : safeName v = some N) : N ≠ [] := by
  intro hnil
  subst hnil
  cases v with
  | str s =>
    simp only [safeName, jAsStr] at hs
    split at hs
    · exact absurd hs (by simp)
    · split at hs
      · exact absurd hs (by simp)
      · rename_i hlen hall
        simp only [Option.some.injEq] at hs
        exact hlen (Or.inl (by rw [hs]; simp [utf16Len]))
  | undefined => simp [safeName, jAsStr] at hs
  | null => simp [safeName, jAsStr] at hs
  | bool b => simp [safeName, jAsStr] at hs
  | num n => simp [safeName, jAsStr] at hs
  | obj fs => simp [safeName, jAsStr] at hs

theorem keysNodup_releasedIndex (h : Hub) (uid : Str) (user : Session)
    (hnd : (h.nameToId.map Prod.fst).Nodup) :
    ((releasedIndex h uid user).map Prod.fst).Nodup := by
  unfold releasedIndex
  cases user.name with
  | none => exact hnd
  | some old =>
    show (List.map Prod.fst
      (if old ≠ [] ∧ mapGet old h.nameToId = some uid
       then mapDel old h.nameToId else h.nameToId)).Nodup
    by_cases hrel : old ≠ [] ∧ mapGet old h.nameToId = some uid
    · rw [if_pos hrel]
      exact keysNodup_mapDel old h.nameToId hnd
    · rw [if_neg hrel]
      exact hnd

/-- Outcome of a successful `setName`: the session is renamed in place, the
index maps the canonical name to the session after the old binding is
released, and the reply is `nameResult ok:true` followed by the System
join broadcast and the presence broadcast. -/
theorem handleSetName_ok (h : Hub) (uid : Str) (user : Session) (msg : JVal) (N : Str)
    (hN : safeName (jGet msg "name") = some N)
    (hfree : mapGet N h.nameToId = none ∨ mapGet N h.nameToId = some uid) :
    handleSetName h uid user msg =
      (⟨(updUser h uid (fun s => { s with name := some N })).users,
        mapSet N uid (releasedIndex h uid user), h.rooms, h.pushSubs⟩,
       Out.frame uid (.nameResult true none (some N)) ::
         (broadcastSystemOuts
            ⟨(updUser h uid (fun s => { s with name := some N })).users,
             mapSet N uid (releasedIndex h uid user), h.rooms, h.pushSubs⟩
            (N ++ js " joined.") ++
          broadcastPresenceOuts
            ⟨(updUser h uid (fun s => { s with name := some N })).users,
             mapSet N uid (releasedIndex h uid user), h.rooms, h.pushSubs⟩)) := by
  have htaken :
      (match mapGet N h.nameToId with
       | some ex => decide (ex ≠ []) && decide (ex ≠ uid)
       | none => false) = false := by
    rcases hfree with hc | hc <;> simp [hc]
  simp only [handleSetName, hN, htaken, Bool.false_eq_true, if_false]
  rfl

theorem msgTypeOf_setName_lit : msgTypeOf (js "setName") = .setName := by decide

/-- Claim C8: two consecutive `setName` frames with the same canonical name
(initially unbound or bound to this session) both answer
`nameResult ok:true` with that name, and leave exactly one index entry for
the name, mapped to this session. -/
theorem claim_C8 (pe : Bool) (f1 f2 : Str) (h : Hub) (uid : Str) (msg : JVal)
    (user : Session) (N : Str)
    (hu : lookupUser h uid = some user)
    (hty : jGetStr msg "type" = some (js "setName"))
    (hN : safeName (jGet msg "name") = some N)
    (hfree : mapGet N h.nameToId = none ∨ mapGet N h.nameToId = some uid)
    (hnodup : (h.nameToId.map Prod.fst).Nodup) :
    (dispatch pe f1 h uid msg).2.head? =
      some (Out.frame uid (.nameResult true none (some N))) ∧
    (dispatch pe f2 (dispatch pe f1 h uid msg).1 uid msg).2.head? =
      some (Out.frame uid (.nameResult true none (some N))) ∧
    countKey N (dispatch pe f2 (dispatch pe f1 h uid msg).1 uid msg).1.nameToId = 1 ∧
    mapGet N (dispatch pe f2 (dispatch pe f1 h uid msg).1 uid msg).1.nameToId = some uid := by
  have hNn : N ≠ [] := safeName_ne_nil hN
  have hd1 : dispatch pe f1 h uid msg = handleSetName h uid user msg := by
    simp [dispatch, hu, hty, msgTypeOf_setName_lit]
  have hok1 := handleSetName_ok h uid user msg N hN hfree
  have hlkA :
      lookupUser ⟨(updUser h uid (fun s => { s with name := some N })).users,
        mapSet N uid (releasedIndex h uid user), h.rooms, h.pushSubs⟩ uid =
      some { user with name := some N } := by
    have hbase : lookupUser (updUser h uid (fun s => { s with name := some N })) uid =
        some { user with name := some N } := by
      rw [lookupUser_updUser_self h uid (fun s => { s with name := some N })
        (fun s => rfl), hu]
      rfl
    exact hbase
  have hd2 : dispatch pe f2 (handleSetName h uid user msg).1 uid msg =
      handleSetName (handleSetName h uid user msg).1 uid
        { user with name := some N } msg := by
    rw [hok1]
    simp [dispatch, hlkA, hty, msgTypeOf_setName_lit]
  have hfree2 : mapGet N (handleSetName h uid user msg).1.nameToId = none ∨
      mapGet N (handleSetName h uid user msg).1.nameToId = some uid := by
    rw [hok1]
    exact Or.inr (mapGet_mapSet_self N uid (releasedIndex h uid user))
  have hok2 := handleSetName_ok (handleSetName h uid user msg).1 uid
      { user with name := some N } msg N hN hfree2
  have hrelA : releasedIndex (handleSetName h uid user msg).1 uid
      { user with name := some N } =
      mapDel N (mapSet N uid (releasedIndex h uid user)) := by
    rw [hok1]
    simp [releasedIndex, hNn, mapGet_mapSet_self]
  refine ⟨?_, ?_, ?_, ?_⟩
  · rw [hd1, hok1]
    rfl
  · rw [hd1, hd2, hok2]
    rfl
  · rw [hd1, hd2, hok2]
    show countKey N (mapSet N uid (releasedIndex (handleSetName h uid user msg).1 uid
      { user with name := some N })) = 1
    rw [hrelA]
    exact countKey_mapSet N uid _
      (keysNodup_mapDel N _
        (keysNodup_mapSet N uid _ (keysNodup_releasedIndex h uid user hnodup)))
  · rw [hd1, hd2, hok2]
    exact mapGet_mapSet_self N uid _

/-- Concrete hub used by the claim C8 witness. -/
def wHubC8 : Hub := ⟨[⟨js "a", none, none, none⟩], [], [], []⟩

/-- Concrete `setName` frame used by the claim C8 and C10 witnesses. -/
def wSetNameMsg : JVal := .obj [("type", .str (js "setName")), ("name", .str (js "Alice"))]

/-- Witness for claim C8 at a concrete input. -/
theorem claim_C8_witness :
    lookupUser wHubC8 (js "a") = some ⟨js "a", none, none, none⟩ ∧
    jGetStr wSetNameMsg "type" = some (js "setName") ∧
    safeName (jGet wSetNameMsg "name") = some (js "Alice") ∧
    mapGet (js "Alice") wHubC8.nameToId = none ∧
    ((dispatch false (js "f") wHubC8 (js "a") wSetNameMsg).2.head? =
      some (Out.frame (js "a") (.nameResult true none (some (js "Alice")))) ∧
     (dispatch false (js "g") (dispatch false (js "f") wHubC8 (js "a") wSetNameMsg).1
        (js "a") wSetNameMsg).2.head? =
      some (Out.frame (js "a") (.nameResult true none (some (js "Alice")))) ∧
     countKey (js "Alice")
       (dispatch false (js "g") (dispatch false (js "f") wHubC8 (js "a") wSetNameMsg).1
          (js "a") wSetNameMsg).1.nameToId = 1 ∧
     mapGet (js "Alice")
       (dispatch false (js "g") (dispatch false (js "f") wHubC8 (js "a") wSetNameMsg).1
          (js "a") wSetNameMsg).1.nameToId = some (js "a")) :=
  ⟨rfl, rfl, by decide, rfl,
   claim_C8 false (js "f") (js "g") wHubC8 (js "a") wSetNameMsg
     ⟨js "a", none, none, none⟩ (js "Alice") rfl rfl (by decide) (Or.inl rfl) (by decide)⟩

theorem mapGet_mapDel_self {α : Type} (k : Str) (m : List (Str × α))
    (hnd : (m.map Prod.fst).Nodup) : mapGet k (mapDel k m) = none := by
  induction m with
  | nil => rfl
  | cons p rest ih =>
    simp only [List.map_cons, List.nodup_cons] at hnd
    by_cases hk : p.1 = k
    · simp only [mapDel, if_pos hk]
      exact mapGet_eq_none_of_not_mem k rest (hk ▸ hnd.1)
    · simp only [mapDel, if_neg hk, mapGet, if_neg hk]
      exact ih hnd.2

/-- Claim C10: `setName` is accepted in every state; a named session (in a
room or not) renaming to a fresh valid name gets `nameResult ok:true`, the
old binding is released, the new one is bound, the System join line is
broadcast again with the new name, and neither the session's `roomId` nor
any room membership changes. -/
theorem claim_C10 (pe : Bool) (fresh : Str) (h : Hub) (uid : Str) (msg : JVal)
    (user : Session) (oldN N : Str)
    (hu : lookupUser h uid = some user)
    (hold : user.name = some oldN)
    (hty : jGetStr msg "type" = some (js "setName"))
    (hN : safeName (jGet msg "name") = some N)
    (hfree : mapGet N h.nameToId = none ∨ mapGet N h.nameToId = some uid)
    (hnodup : (h.nameToId.map Prod.fst).Nodup)
    (holdb : oldN ≠ [] ∧ mapGet oldN h.nameToId = some uid)
    (hne : oldN ≠ N) :
    (dispatch pe fresh h uid msg).2.head? =
      some (Out.frame uid (.nameResult true none (some N))) ∧
    (dispatch pe fresh h uid msg).1.rooms = h.rooms ∧
    lookupUser (dispatch pe fresh h uid msg).1 uid = some { user with name := some N } ∧
    mapGet N (dispatch pe fresh h uid msg).1.nameToId = some uid ∧
    mapGet oldN (dispatch pe fresh h uid msg).1.nameToId = none ∧
    (dispatch pe fresh h uid msg).2 =
      Out.frame uid (.nameResult true none (some N)) ::
        (broadcastSystemOuts (dispatch pe fresh h uid msg).1 (N ++ js " joined.") ++
         broadcastPresenceOuts (dispatch pe fresh h uid msg).1) := by
  have hd1 : dispatch pe fresh h uid msg = handleSetName h uid user msg := by
    simp [dispatch, hu, hty, msgTypeOf_setName_lit]
  have hok1 := handleSetName_ok h uid user msg N hN hfree
  have hrel : releasedIndex h uid user = mapDel oldN h.nameToId := by
    unfold releasedIndex
    rw [hold]
    exact if_pos holdb
  refine ⟨?_, ?_, ?_, ?_, ?_, ?_⟩
  · rw [hd1, hok1]
    rfl
  · rw [hd1, hok1]
  · rw [hd1, hok1]
    have hbase : lookupUser (updUser h uid (fun s => { s with name := some N })) uid =
        some { user with name := some N } := by
      rw [lookupUser_updUser_self h uid (fun s => { s with name := some N })
        (fun s => rfl), hu]
      rfl
    exact hbase
  · rw [hd1, hok1]
    exact mapGet_mapSet_self N uid _
  · rw [hd1, hok1]
    show mapGet oldN (mapSet N uid (releasedIndex h uid user)) = none
    rw [mapGet_mapSet_ne N oldN uid _ hne, hrel]
    exact mapGet_mapDel_self oldN h.nameToId hnodup
  · rw [hd1, hok1]

/-- Concrete in-call named hub used by the claim C10 witness. -/
def wHubC10 : Hub :=
  ⟨[⟨js "a", some (js "Old"), some (js "r"), none⟩,
    ⟨js "b", some (js "B"), some (js "r"), none⟩],
   [(js "Old", js "a"), (js "B", js "b")],
   [⟨js "r", [js "a", js "b"]⟩], []⟩

/-- Witness for claim C10: an in-room named session renames itself. -/
theorem claim_C10_witness :
    lookupUser wHubC10 (js "a") = some ⟨js "a", some (js "Old"), some (js "r"), none⟩ ∧
    jGetStr wSetNameMsg "type" = some (js "setName") ∧
    safeName (jGet wSetNameMsg "name") = some (js "Alice") ∧
    mapGet (js "Alice") wHubC10.nameToId = none ∧
    mapGet (js "Old") wHubC10.nameToId = some (js "a") ∧
    ((dispatch false (js "f") wHubC10 (js "a") wSetNameMsg).2.head? =
       some (Out.frame (js "a") (.nameResult true none (some (js "Alice")))) ∧
     (dispatch false (js "f") wHubC10 (js "a") wSetNameMsg).1.rooms = wHubC10.rooms ∧
     lookupUser (dispatch false (js "f") wHubC10 (js "a") wSetNameMsg).1 (js "a") =
       some ⟨js "a", some (js "Alice"), some (js "r"), none⟩ ∧
     mapGet (js "Alice")
       (dispatch false (js "f") wHubC10 (js "a") wSetNameMsg).1.nameToId = some (js "a") ∧
     mapGet (js "Old")
       (dispatch false (js "f") wHubC10 (js "a") wSetNameMsg).1.nameToId = none ∧
     (dispatch false (js "f") wHubC10 (js "a") wSetNameMsg).2 =
       Out.frame (js "a") (.nameResult true none (some (js "Alice"))) ::
         (broadcastSystemOuts (dispatch false (js "f") wHubC10 (js "a") wSetNameMsg).1
            (js "Alice" ++ js " joined.") ++
          broadcastPresenceOuts (dispatch false (js "f") wHubC10 (js "a") wSetNameMsg).1)) :=
  ⟨rfl, rfl, by decide, rfl, rfl,
   claim_C10 false (js "f") wHubC10 (js "a") wSetNameMsg
     ⟨js "a", some (js "Old"), some (js "r"), none⟩ (js "Old") (js "Alice")
     rfl rfl rfl (by decide) (Or.inl rfl) (by decide) ⟨by decide, rfl⟩ (by decide)⟩

/-- Rate-limit verdicts over a sequence of frame arrival times for one
session, threading the bucket exactly as consecutive `ws.on('message')`
invocations do (`true` = the frame passes the rate check and is
dispatched). -/
def rlRun (rl0 : Option RL) : List Nat → List Bool
  | [] => []
  | t :: ts => (rateLimitStep rl0 t).2 :: rlRun (some (rateLimitStep rl0 t).1) ts

/-- Number of dispatched frames whose arrival time lies in `[lo, hi]`. -/
def dispatchedWithin : List Nat → List Bool → Nat → Nat → Nat
  | t :: ts, b :: bs, lo, hi =>
    (if b = true ∧ lo ≤ t ∧ t ≤ hi then 1 else 0) + dispatchedWithin ts bs lo hi
  | _, _, _, _ => 0

/-- Number of `true` verdicts. -/
def countTrue : List Bool → Nat
  | [] => 0
  | b :: bs => (if b = true then 1 else 0) + countTrue bs

/-- Arrival times refuting the sliding-window reading of claim C4: one
frame at 0, nineteen at 2000 (same fixed window), twenty at 2001 (the
window resets), so the one-millisecond interval [2000, 2001] sees 39
dispatched frames. -/
def cexC4Times : List Nat := 0 :: (List.replicate 19 2000 ++ List.replicate 20 2001)

/-- Counterexample to claim C4 as stated: it is not true that every
2000-ms interval contains at most 20 dispatched frames. -/
theorem claim_C4_counterexample :
    ¬ (∀ (rl0 : Option RL) (ts : List Nat) (lo hi : Nat), hi ≤ lo + 2000 →
        dispatchedWithin ts (rlRun rl0 ts) lo hi ≤ 20) := by
  intro hcl
  have h39 : dispatchedWithin cexC4Times (rlRun none cexC4Times) 2000 2001 = 39 := by decide
  have hle := hcl none cexC4Times 2000 2001 (by norm_num)
  omega

/-- At most `20 - count` further frames are dispatched while the limiter's
fixed window does not reset. -/
theorem rl_fixed_window_bound (w0 : RL) (ts : List Nat)
    (hin : ∀ t ∈ ts, t - w0.windowStart ≤ 2000) :
    countTrue (rlRun (some w0) ts) + min w0.count 20 ≤ 20 := by
  induction ts generalizing w0 with
  | nil =>
    simpa [rlRun, countTrue] using Nat.min_le_right w0.count 20
  | cons t ts ih =>
    have ht : t - w0.windowStart ≤ 2000 := hin t (List.mem_cons_self t ts)
    have hnr : ¬ 2000 < t - w0.windowStart := by omega
    have hstep : rateLimitStep (some w0) t =
        (⟨w0.windowStart, w0.count + 1⟩, decide (w0.count + 1 ≤ 20)) := by
      simp [rateLimitStep, hnr]
    have hrec := ih ⟨w0.windowStart, w0.count + 1⟩
      (fun u hu => hin u (List.mem_cons_of_mem t hu))
    simp only [rlRun, hstep, countTrue] at *
    by_cases hok : w0.count + 1 ≤ 20
    · rw [Nat.min_eq_left hok] at hrec
      rw [Nat.min_eq_left (by omega)]
      rw [if_pos (by simp [hok])]
      omega
    · rw [Nat.min_eq_right (by omega)] at hrec
      rw [Nat.min_eq_right (by omega)]
      rw [if_neg (by simp [hok])]
      omega

/-- Claim C4 (amended): the limiter's window is the fixed window of the
source counter, not a sliding interval. Within any run of frames during
which the fixed window does not reset, at most 20 frames are dispatched in
total (at most `20 - count` more, `count` being the bucket already used);
and a frame whose rate verdict is `false` is answered with exactly
`{type:'error', code:'RATE_LIMIT'}`, is not dispatched (only the bucket
changes), and is consumed. -/
theorem claim_C4 :
    (∀ (w0 : RL) (ts : List Nat),
        (∀ t ∈ ts, t - w0.windowStart ≤ 2000) →
        countTrue (rlRun (some w0) ts) + min w0.count 20 ≤ 20) ∧
    (∀ (pe : Bool) (fresh : Str) (h : Hub) (uid : Str) (now : Nat) (d : ClientData)
        (user : Session),
        lookupUser h uid = some user →
        (rateLimitStep user.rl now).2 = false →
        handleData pe fresh h uid now d =
          (updUser h uid (fun s => { s with rl := some (rateLimitStep user.rl now).1 }),
           [Out.frame uid (.error "RATE_LIMIT")])) := by
  refine ⟨rl_fixed_window_bound, ?_⟩
  intro pe fresh h uid now d user hu hrl
  simp [handleData, hu, hrl]

/-- Concrete hub used by the claim C4 witness: the session's bucket is
already at 20 inside the current window. -/
def wHubC4 : Hub := ⟨[⟨js "a", some (js "A"), none, some ⟨0, 20⟩⟩], [(js "A", js "a")], [], []⟩

/-- Witness for claim C4 at concrete inputs: a full window admits no
further dispatch, and the 21st frame of a window is answered with
`RATE_LIMIT` while only the bucket advances. -/
theorem claim_C4_witness :
    ((∀ t ∈ [5, 1999], t - (⟨0, 18⟩ : RL).windowStart ≤ 2000) ∧
     countTrue (rlRun (some ⟨0, 18⟩) [5, 1999]) + min (18 : Nat) 20 ≤ 20) ∧
    (lookupUser wHubC4 (js "a") = some ⟨js "a", some (js "A"), none, some ⟨0, 20⟩⟩ ∧
     (rateLimitStep (some ⟨0, 20⟩) 5).2 = false ∧
     handleData false (js "f") wHubC4 (js "a") 5 .malformed =
       (updUser wHubC4 (js "a")
          (fun s => { s with rl := some (rateLimitStep (some ⟨0, 20⟩) 5).1 }),
        [Out.frame (js "a") (.error "RATE_LIMIT")])) :=
  ⟨⟨by decide, claim_C4.1 ⟨0, 18⟩ [5, 1999] (by decide)⟩,
   ⟨rfl, by decide,
    claim_C4.2 false (js "f") wHubC4 (js "a") 5 .malformed
      ⟨js "a", some (js "A"), none, some ⟨0, 20⟩⟩ rfl (by decide)⟩⟩

/-- No duplicate session ids (a JS `Map` cannot hold two entries under one
key). -/
def usersNodup (h : Hub) : Prop := (h.users.map Session.id).Nodup

/-- Name-index soundness (spec Invariant A/B, first half): every index
entry points at an existing session carrying that name. -/
def namesInvA (h : Hub) : Prop :=
  ∀ p ∈ h.nameToId, ((lookupUser h p.2).map Session.name) = some (some p.1)

/-- Name-index completeness (spec Invariant A/B, second half): every named
session is indexed under its name. -/
def namesInvB (h : Hub) : Prop :=
  ∀ u ∈ h.users, u.name.all (fun n => decide (mapGet n h.nameToId = some u.id)) = true

/-- The name-index invariant of the presence registry. -/
def NamesInv (h : Hub) : Prop := namesInvA h ∧ namesInvB h

theorem mapGet_mem {α : Type} {k : Str} {v : α} {m : List (Str × α)}
    (hg : mapGet k m = some v) : (k, v) ∈ m := by
  induction m with
  | nil => exact absurd hg (by simp [mapGet])
  | cons p rest ih =>
    by_cases hk : p.1 = k
    · simp only [mapGet, if_pos hk, Option.some.injEq] at hg
      have hpv : p = (k, v) := Prod.ext hk hg
      rw [← hpv]
      exact List.mem_cons_self p rest
    · simp only [mapGet, if_neg hk] at hg
      exact List.mem_cons_of_mem p (ih hg)

theorem eq_of_id_eq {l : List Session} (hnd : (l.map Session.id).Nodup) :
    ∀ u1 ∈ l, ∀ u2 ∈ l, u1.id = u2.id → u1 = u2 := by
  induction l with
  | nil => simp
  | cons a l ih =>
    simp only [List.map_cons, List.nodup_cons] at hnd
    intro u1 h1 u2 h2 heq
    rcases List.mem_cons.mp h1 with rfl | h1m
    · rcases List.mem_cons.mp h2 with rfl | h2m
      · rfl
      · exact absurd (heq ▸ List.mem_map_of_mem Session.id h2m) hnd.1
    · rcases List.mem_cons.mp h2 with rfl | h2m
      · exact absurd (heq ▸ List.mem_map_of_mem Session.id h1m) hnd.1
      · exact ih hnd.2 u1 h1m u2 h2m heq

theorem pmGuard_ne_nil {tn bd toName body : Str}
    (hg : (if tn = [] ∨ bd = [] then none else some (tn, bd)) = some (toName, body)) :
    toName ≠ [] ∧ body ≠ [] := by
  by_cases hc : tn = [] ∨ bd = []
  · rw [if_pos hc] at hg
    exact absurd hg (by simp)
  · rw [if_neg hc] at hg
    push_neg at hc
    simp only [Option.some.injEq, Prod.mk.injEq] at hg
    exact ⟨hg.1 ▸ hc.1, hg.2 ▸ hc.2⟩

theorem parsePrivateMsg_ne_nil {raw toName body : Str}
    (hp : parsePrivateMsg raw = some (toName, body)) : toName ≠ [] ∧ body ≠ [] := by
  unfold parsePrivateMsg at hp
  repeat' split at hp
  all_goals first
    | exact pmGuard_ne_nil hp
    | exact absurd hp (by simp)

theorem idsOk_mem {h : Hub} (hids : idsOk h = true) {u : Session}
    (hu : u ∈ h.users) : u.id ≠ [] := by
  simp only [idsOk, List.all_eq_true, decide_eq_true_eq] at hids
  exact hids u hu

theorem namesInvB_mem {h : Hub} (hB : namesInvB h) {u : Session} {n : Str}
    (hu : u ∈ h.users) (hn : u.name = some n) : mapGet n h.nameToId = some u.id := by
  have hall := hB u hu
  rw [hn] at hall
  simpa [Option.all] using hall

/-- Under the presence-registry invariant, the router's two-step resolution
of a private-message target (name index, then session table) agrees with
picking the session that holds the name. -/
theorem resolveByName (h : Hub) (toName : Str)
    (hninv : NamesInv h) (hund : usersNodup h) (hids : idsOk h = true) :
    (match mapGet toName h.nameToId with
     | some tid => if tid ≠ [] then lookupUser h tid else none
     | none => none) =
    h.users.find? (fun s => decide (s.name = some toName)) := by
  obtain ⟨hA, hB⟩ := hninv
  cases hm : mapGet toName h.nameToId with
  | none =>
    symm
    rw [List.find?_eq_none]
    intro u hu
    simp only [decide_eq_true_eq]
    intro hn
    rw [namesInvB_mem hB hu hn] at hm
    exact absurd hm (by simp)
  | some tid =>
    have hAs := hA (toName, tid) (mapGet_mem hm)
    cases hlk : lookupUser h tid with
    | none =>
      rw [hlk] at hAs
      exact absurd hAs (by simp)
    | some s =>
      rw [hlk] at hAs
      simp only [Option.map_some', Option.some.injEq] at hAs
      have hsmem : s ∈ h.users := List.mem_of_find?_eq_some hlk
      have hsid : s.id = tid := by simpa using List.find?_some hlk
      have htid : tid ≠ [] := hsid ▸ idsOk_mem hids hsmem
      show (if tid ≠ [] then lookupUser h tid else none) =
        List.find? (fun s2 => decide (s2.name = some toName)) h.users
      rw [if_pos htid, hlk]
      symm
      cases hf : h.users.find? (fun s2 => decide (s2.name = some toName)) with
      | none =>
        rw [List.find?_eq_none] at hf
        exact absurd (by simpa using hAs) (by simpa using hf s hsmem)
      | some u0 =>
        have hu0mem : u0 ∈ h.users := List.mem_of_find?_eq_some hf
        have hu0n : u0.name = some toName := by simpa using List.find?_some hf
        have hu0g : mapGet toName h.nameToId = some u0.id := namesInvB_mem hB hu0mem hu0n
        have hid0 : u0.id = s.id := by
          rw [hm] at hu0g
          simp only [Option.some.injEq] at hu0g
          rw [hsid]
          exact hu0g.symm
        rw [eq_of_id_eq hund u0 hu0mem s hsmem hid0]

/-- Spec-side routing of a validated chat body, following claim C5: the
`@reply [` literal forces a public broadcast; otherwise a parsed private
prefix is delivered to exactly the sender and the session holding the
target name (with `PM_NOT_FOUND` / `PM_SELF` errors), and everything else
is broadcast publicly. -/
def chatSpecOuts (h : Hub) (user : Session) (raw : Str) : List Out :=
  if (js "@reply [").isPrefixOf raw then broadcastChatOuts h user raw
  else
    match parsePrivateMsg raw with
    | none => broadcastChatOuts h user raw
    | some (toName, body) =>
      match h.users.find? (fun s => decide (s.name = some toName)) with
      | none => [Out.frame user.id (.error "PM_NOT_FOUND")]
      | some tu =>
        if tu.id = user.id then [Out.frame user.id (.error "PM_SELF")]
        else sendPrivateChatOuts user tu body

/-- Claim C5: private chat routing for a named sender whose text passes
validation, including the `@reply [` escape, the two error replies, and
delivery to exactly the sender and the resolved recipient with the parsed
body and a push-sink call for the recipient. -/
theorem claim_C5 (pe : Bool) (fresh : Str) (h : Hub) (uid : Str) (msg : JVal)
    (user : Session) (raw : Str)
    (hu : lookupUser h uid = some user)
    (hname : optStrTruthy user.name = true)
    (hty : jGetStr msg "type" = some (js "chatSend"))
    (hraw : safeChatText (jGet msg "text") = some raw)
    (hninv : NamesInv h) (hund : usersNodup h) (hids : idsOk h = true) :
    dispatch pe fresh h uid msg = (h, chatSpecOuts h user raw) := by
  have huid : user.id = uid := by simpa using List.find?_some hu
  have hmt : msgTypeOf (js "chatSend") = .chatSend := by decide
  simp only [dispatch, hu, hty, hmt, hname, not_true, if_false]
  simp only [handleChatSend, chatSpecOuts, hraw]
  by_cases hrep : (js "@reply [").isPrefixOf raw
  · simp [hrep]
  · simp only [Bool.not_eq_true] at hrep
    simp only [hrep, Bool.false_eq_true, if_false]
    cases hpm : parsePrivateMsg raw with
    | none => simp
    | some pr =>
      obtain ⟨toName, body⟩ := pr
      have hres := resolveByName h toName hninv hund hids
      have htn : toName ≠ [] := (parsePrivateMsg_ne_nil hpm).1
      simp only [hres]
      cases hf : h.users.find? (fun s2 => decide (s2.name = some toName)) with
      | none => simp [huid]
      | some tu =>
        have hu0n : tu.name = some toName := by simpa using List.find?_some hf
        have htutr : optStrTruthy tu.name = true := by simp [optStrTruthy, hu0n, htn]
        by_cases hself : tu.id = uid
        · simp [htutr, hself, huid]
        · simp [htutr, hself, huid]

instance (h : Hub) : Decidable (usersNodup h) := by
  unfold usersNodup
  infer_instance

instance (h : Hub) : Decidable (namesInvA h) := by
  unfold namesInvA
  infer_instance

instance (h : Hub) : Decidable (namesInvB h) := by
  unfold namesInvB
  infer_instance

instance (h : Hub) : Decidable (NamesInv h) := by
  unfold NamesInv
  infer_instance

/-- Concrete three-user hub used by the claim C5 witness. -/
def wHubC5 : Hub :=
  ⟨[⟨js "a", some (js "Alice"), none, none⟩, ⟨js "b", some (js "Bob"), none, none⟩,
    ⟨js "c", some (js "Carol"), none, none⟩],
   [(js "Alice", js "a"), (js "Bob", js "b"), (js "Carol", js "c")], [], []⟩

/-- Concrete private-message frame used by the claim C5 witness. -/
def wPmMsg : JVal := .obj [("type", .str (js "chatSend")), ("text", .str (js "@Bob hi"))]

/-- Witness for claim C5: Alice sends `@Bob hi`; the routing equals the
spec-side routing (delivery to sender and Bob only, with the parsed
body). -/
theorem claim_C5_witness :
    lookupUser wHubC5 (js "a") = some ⟨js "a", some (js "Alice"), none, none⟩ ∧
    optStrTruthy (some (js "Alice")) = true ∧
    jGetStr wPmMsg "type" = some (js "chatSend") ∧
    safeChatText (jGet wPmMsg "text") = some (js "@Bob hi") ∧
    NamesInv wHubC5 ∧ usersNodup wHubC5 ∧ idsOk wHubC5 = true ∧
    (dispatch false (js "f") wHubC5 (js "a") wPmMsg =
      (wHubC5, chatSpecOuts wHubC5 ⟨js "a", some (js "Alice"), none, none⟩ (js "@Bob hi")) ∧
     chatSpecOuts wHubC5 ⟨js "a", some (js "Alice"), none, none⟩ (js "@Bob hi") =
       sendPrivateChatOuts ⟨js "a", some (js "Alice"), none, none⟩
         ⟨js "b", some (js "Bob"), none, none⟩ (js "hi")) :=
  ⟨rfl, rfl, rfl, by decide, by decide, by decide, rfl,
   claim_C5 false (js "f") wHubC5 (js "a") wPmMsg
     ⟨js "a", some (js "Alice"), none, none⟩ (js "@Bob hi")
     rfl rfl rfl (by decide) (by decide) (by decide) rfl,
   rfl⟩

/-- Every room of the list has at least two member ids. -/
def roomsOkTwo (rs : List Room) : Prop := ∀ r ∈ rs, 2 ≤ r.members.length

/-- Claim C3's standing invariant: no room of the hub has one or zero
members. -/
def roomsAtLeastTwo (h : Hub) : Prop := roomsOkTwo h.rooms

theorem roomsOkTwo_del_replace (rs : List Room) (rid : Str) (ms : List Str)
    (hr2 : roomsOkTwo rs) :
    roomsOkTwo (((rs.map (fun r => if r.id = rid then ⟨r.id, ms⟩ else r)).filter
      (fun r => r.id ≠ rid))) := by
  intro r hr
  obtain ⟨hmem, hne⟩ := List.mem_filter.mp hr
  obtain ⟨r0, hr0, heq⟩ := List.mem_map.mp hmem
  by_cases h0 : r0.id = rid
  · rw [if_pos h0] at heq
    rw [← heq] at hne
    simp [h0] at hne
  · rw [if_neg h0] at heq
    rw [← heq]
    exact hr2 r0 hr0

theorem roomsOkTwo_replace_big (rs : List Room) (rid : Str) (ms : List Str)
    (hms : 2 ≤ ms.length) (hr2 : roomsOkTwo rs) :
    roomsOkTwo (rs.map (fun r => if r.id = rid then ⟨r.id, ms⟩ else r)) := by
  intro r hr
  obtain ⟨r0, hr0, heq⟩ := List.mem_map.mp hr
  by_cases h0 : r0.id = rid
  · rw [if_pos h0] at heq
    rw [← heq]
    exact hms
  · rw [if_neg h0] at heq
    rw [← heq]
    exact hr2 r0 hr0

theorem r2_leaveRoom (h : Hub) (u : Session) (hr2 : roomsAtLeastTwo h) :
    roomsAtLeastTwo (leaveRoom h u).1 := by
  unfold leaveRoom
  split
  · exact hr2
  · dsimp only
    split
    · exact hr2
    · split
      · split
        · split
          · exact roomsOkTwo_del_replace h.rooms _ _ hr2
          · exact roomsOkTwo_del_replace h.rooms _ _ hr2
        · exact roomsOkTwo_del_replace h.rooms _ _ hr2
      · rename_i hbig
        exact roomsOkTwo_replace_big h.rooms _ _ (by omega) hr2

theorem r2_closeUser (h : Hub) (uid : Str) (hr2 : roomsAtLeastTwo h) :
    roomsAtLeastTwo (closeUser h uid).1 := by
  unfold closeUser
  split
  · exact hr2
  · rename_i u hu
    show roomsOkTwo (if u.roomId.isSome then leaveRoom h u else (h, [])).1.rooms
    by_cases hio : u.roomId.isSome
    · rw [if_pos hio]
      exact r2_leaveRoom h u hr2
    · rw [if_neg hio]
      exact hr2

theorem le_length_setAdd (x : Str) (s : List Str) : s.length ≤ (setAdd x s).length := by
  unfold setAdd
  split
  · exact Nat.le_refl _
  · simp

theorem roomsOkTwo_append_new (rs : List Room) (rid : Str) (ms : List Str)
    (hnone : ∀ r ∈ rs, r.id ≠ rid) (hms : 2 ≤ ms.length) (hr2 : roomsOkTwo rs) :
    roomsOkTwo ((rs ++ ([⟨rid, []⟩] : List Room)).map
      (fun r : Room => if r.id = rid then (⟨r.id, ms⟩ : Room) else r)) := by
  intro r hr
  rw [List.map_append] at hr
  rcases List.mem_append.mp hr with hl | hl
  · obtain ⟨r0, hr0, heq⟩ := List.mem_map.mp hl
    rw [if_neg (hnone r0 hr0)] at heq
    rw [← heq]
    exact hr2 r0 hr0
  · simp only [List.map_cons, List.map_nil, List.mem_singleton, if_pos rfl] at hl
    rw [hl]
    exact hms

theorem findRoom_eq_none_forall {h : Hub} {rid : Str} (hn : findRoom h rid = none) :
    ∀ r ∈ h.rooms, r.id ≠ rid := by
  intro r hr
  have := List.find?_eq_none.mp hn r hr
  simpa using this

theorem r2_handleCallStart (h : Hub) (fresh uid : Str) (user : Session) (msg : JVal)
    (huid : user.id = uid) (hr2 : roomsAtLeastTwo h) :
    roomsAtLeastTwo (handleCallStart h fresh uid user msg).1 := by
  unfold handleCallStart
  split
  · exact hr2
  · rename_i toId hto
    dsimp only
    split
    · exact hr2
    · split
      · exact hr2
      · rename_i hnil callee hlk
        have hcid : callee.id = toId := by simpa using List.find?_some hlk
        split
        · exact hr2
        · split
          · exact hr2
          · split
            · exact hr2
            · rename_i hne hready hbusy
              show roomsOkTwo ((setRoomMembers (ensureRoom h (user.roomId.getD fresh))
                (user.roomId.getD fresh)
                (setAdd callee.id (setAdd user.id
                  ((findRoom (ensureRoom h (user.roomId.getD fresh))
                    (user.roomId.getD fresh)).getD
                    ⟨user.roomId.getD fresh, []⟩).members))).rooms)
              set rid := user.roomId.getD fresh with hriddef
              cases hex : findRoom h rid with
              | some room0 =>
                have hmem0 : room0 ∈ h.rooms := List.mem_of_find?_eq_some hex
                have hens : ensureRoom h rid = h := by
                  unfold ensureRoom
                  rw [if_pos (by rw [hex]; rfl)]
                rw [hens, hex]
                have hlen : 2 ≤ (setAdd callee.id (setAdd user.id room0.members)).length :=
                  le_trans (le_trans (hr2 room0 hmem0) (le_length_setAdd user.id _))
                    (le_length_setAdd callee.id _)
                exact roomsOkTwo_replace_big h.rooms rid _ hlen hr2
              | none =>
                have hens : ensureRoom h rid = { h with rooms := h.rooms ++ [⟨rid, []⟩] } := by
                  unfold ensureRoom
                  rw [if_neg (by rw [hex]; simp)]
                rw [hens]
                have hfa : findRoom { h with rooms := h.rooms ++ [⟨rid, []⟩] } rid =
                    some ⟨rid, []⟩ := by
                  simp only [findRoom, List.find?_append]
                  rw [show List.find? (fun r => decide (r.id = rid)) h.rooms = none from hex]
                  simp
                rw [hfa]
                have hlen : 2 ≤ (setAdd callee.id (setAdd user.id
                    (Room.members ⟨rid, []⟩))).length := by
                  have huc : ¬ (callee.id = user.id) := by
                    rw [hcid, huid]
                    exact hne
                  simp [setAdd, huc]
                exact roomsOkTwo_append_new h.rooms rid _
                  (findRoom_eq_none_forall hex) hlen hr2

theorem r2_handleSetName (h : Hub) (uid : Str) (user : Session) (msg : JVal)
    (hr2 : roomsAtLeastTwo h) : roomsAtLeastTwo (handleSetName h uid user msg).1 := by
  unfold handleSetName
  repeat' split
  all_goals exact hr2

theorem r2_handleCallReject (h : Hub) (uid : Str) (user : Session) (msg : JVal)
    (hr2 : roomsAtLeastTwo h) : roomsAtLeastTwo (handleCallReject h uid user msg).1 := by
  unfold handleCallReject
  dsimp only
  split
  · exact r2_leaveRoom h user hr2
  · exact hr2

theorem r2_handleCallAccept (h : Hub) (uid : Str) (user : Session) (msg : JVal)
    (hr2 : roomsAtLeastTwo h) : roomsAtLeastTwo (handleCallAccept h uid user msg).1 := by
  unfold handleCallAccept
  dsimp only
  repeat' split
  all_goals exact hr2

theorem r2_handleSignal (h : Hub) (user : Session) (msg : JVal)
    (hr2 : roomsAtLeastTwo h) : roomsAtLeastTwo (handleSignal h user msg).1 := by
  unfold handleSignal
  repeat' split
  all_goals exact hr2

theorem r2_handleChatSend (h : Hub) (uid : Str) (user : Session) (msg : JVal)
    (hr2 : roomsAtLeastTwo h) : roomsAtLeastTwo (handleChatSend h uid user msg).1 := by
  unfold handleChatSend
  dsimp only
  repeat' split
  all_goals exact hr2

theorem r2_dispatch (pe : Bool) (fresh : Str) (h : Hub) (uid : Str) (msg : JVal)
    (hr2 : roomsAtLeastTwo h) : roomsAtLeastTwo (dispatch pe fresh h uid msg).1 := by
  unfold dispatch
  split
  · exact hr2
  · rename_i user hu
    have huid : user.id = uid := by simpa using List.find?_some hu
    split
    · exact hr2
    · split
      · repeat' split
        all_goals exact hr2
      · exact hr2
      · exact r2_handleSetName h uid user msg hr2
      · split
        · exact hr2
        · split
          · exact r2_handleCallStart h fresh uid user msg huid hr2
          · exact r2_handleCallReject h uid user msg hr2
          · exact r2_handleCallAccept h uid user msg hr2
          · exact r2_handleSignal h user msg hr2
          · exact r2_leaveRoom h user hr2
          · exact r2_handleChatSend h uid user msg hr2
          · exact hr2

theorem r2_handleData (pe : Bool) (fresh : Str) (h : Hub) (uid : Str) (now : Nat)
    (d : ClientData) (hr2 : roomsAtLeastTwo h) :
    roomsAtLeastTwo (handleData pe fresh h uid now d).1 := by
  unfold handleData
  split
  · exact hr2
  · dsimp only
    split
    · exact hr2
    · split
      · exact hr2
      · exact r2_dispatch pe fresh _ uid _ hr2

theorem findRoom_delRoom_self (h : Hub) (rid : Str) :
    findRoom (delRoom h rid) rid = none := by
  simp only [findRoom, delRoom, List.find?_eq_none]
  intro r hr
  have hne := (List.mem_filter.mp hr).2
  simpa using hne

theorem setDel_mem_ne {x lastId : Str} {s : List Str}
    (hm : lastId ∈ setDel x s) : lastId ≠ x := by
  have := (List.mem_filter.mp hm).2
  simpa using this

theorem head?_mem {α : Type} {l : List α} {a : α} (hh : l.head? = some a) : a ∈ l := by
  cases l with
  | nil => exact absurd hh (by simp)
  | cons b t =>
    simp only [List.head?_cons, Option.some.injEq] at hh
    rw [hh]
    exact List.mem_cons_self a t

/-- Dissolution behaviour of `leaveRoom` (claim C3, first half): when the
leaver's departure leaves at most one member, the room is deleted, and a
remaining member whose session exists has its `roomId` cleared and is sent
`callEnded` with reason `alone`. -/
theorem leaveRoom_dissolution (h : Hub) (u : Session) (rid : Str) (room : Room)
    (hrid : u.roomId = some rid)
    (hfr : findRoom h rid = some room)
    (hsmall : (setDel u.id room.members).length ≤ 1) :
    findRoom (leaveRoom h u).1 rid = none ∧
    (∀ (lastId : Str) (last : Session),
      (setDel u.id room.members).head? = some lastId →
      lookupUser h lastId = some last →
      (lookupUser (leaveRoom h u).1 lastId).map Session.roomId = some none ∧
      Out.frame last.id (.callEnded "alone") ∈ (leaveRoom h u).2) := by
  have hfr1 : findRoom (updUser h u.id (fun s => { s with roomId := none })) rid =
      some room := hfr
  unfold leaveRoom
  rw [hrid]
  dsimp only
  rw [hfr1]
  dsimp only
  rw [if_pos hsmall]
  constructor
  · cases hh : (setDel u.id room.members).head? with
    | none => exact findRoom_delRoom_self _ rid
    | some lastId =>
      dsimp only
      cases hlk2 : lookupUser
          (setRoomMembers (updUser h u.id (fun s => { s with roomId := none })) rid
            (setDel u.id room.members)) lastId with
      | none => exact findRoom_delRoom_self _ rid
      | some last2 => exact findRoom_delRoom_self _ rid
  · intro lastId last hhead hlast
    have hne : lastId ≠ u.id := setDel_mem_ne (head?_mem hhead)
    have hl2 : lookupUser
        (setRoomMembers (updUser h u.id (fun s => { s with roomId := none })) rid
          (setDel u.id room.members)) lastId = some last := by
      have htr : lookupUser (updUser h u.id (fun s => { s with roomId := none })) lastId =
          lookupUser h lastId :=
        lookupUser_updUser_other h u.id lastId (fun s => { s with roomId := none })
          (fun s => rfl) hne
      exact htr.trans hlast
    rw [hhead]
    dsimp only
    rw [hl2]
    dsimp only
    constructor
    · have hupd : lookupUser
          (updUser (setRoomMembers (updUser h u.id (fun s => { s with roomId := none })) rid
            (setDel u.id room.members)) lastId (fun s => { s with roomId := none }))
          lastId =
          (lookupUser (setRoomMembers (updUser h u.id (fun s => { s with roomId := none })) rid
            (setDel u.id room.members)) lastId).map (fun s => { s with roomId := none }) :=
        lookupUser_updUser_self _ lastId (fun s => { s with roomId := none }) (fun s => rfl)
      show (lookupUser
          (updUser (setRoomMembers (updUser h u.id (fun s => { s with roomId := none })) rid
            (setDel u.id room.members)) lastId (fun s => { s with roomId := none }))
          lastId).map Session.roomId = some none
      rw [hupd, hl2]
      rfl
    · exact List.mem_append.mpr (Or.inr (List.mem_singleton.mpr rfl))

/-- Claim C3: (i) in every reachable hub state, no room has one or zero
members; (ii) an operation that removes a member and leaves at most one
(all removal paths go through `leaveRoom`: `callHangup`, a `callReject`
matching the session's room, and the disconnect handler) deletes the room,
and a surviving member's session loses its `roomId` and receives
`callEnded` with reason `alone`. -/
theorem claim_C3 :
    (∀ (pe : Bool) (h : Hub), Reachable pe h → roomsAtLeastTwo h) ∧
    (∀ (h : Hub) (u : Session) (rid : Str) (room : Room),
      u.roomId = some rid → findRoom h rid = some room →
      (setDel u.id room.members).length ≤ 1 →
      findRoom (leaveRoom h u).1 rid = none ∧
      (∀ (lastId : Str) (last : Session),
        (setDel u.id room.members).head? = some lastId →
        lookupUser h lastId = some last →
        (lookupUser (leaveRoom h u).1 lastId).map Session.roomId = some none ∧
        Out.frame last.id (.callEnded "alone") ∈ (leaveRoom h u).2)) := by
  constructor
  · intro pe h hreach
    induction hreach with
    | init =>
      intro r hr
      exact absurd hr (by simp [Hub.init])
    | connect h0 newId hprev ih => exact ih
    | message h0 fresh uid now d hprev ih => exact r2_handleData _ _ _ _ _ _ ih
    | close h0 uid hprev ih => exact r2_closeUser _ _ ih
  · intro h u rid room hrid hfr hsmall
    exact leaveRoom_dissolution h u rid room hrid hfr hsmall

/-- Witness for claim C3: the initial state invariant, and a concrete
two-member room dissolving when one member leaves. -/
theorem claim_C3_witness :
    (roomsAtLeastTwo Hub.init) ∧
    ((⟨js "a", some (js "A"), some (js "r"), none⟩ : Session).roomId = some (js "r") ∧
     findRoom wHubRoom (js "r") = some ⟨js "r", [js "a", js "b"]⟩ ∧
     (setDel (js "a") (Room.members ⟨js "r", [js "a", js "b"]⟩)).length ≤ 1 ∧
     findRoom (leaveRoom wHubRoom ⟨js "a", some (js "A"), some (js "r"), none⟩).1
       (js "r") = none ∧
     (setDel (js "a") (Room.members ⟨js "r", [js "a", js "b"]⟩)).head? = some (js "b") ∧
     lookupUser wHubRoom (js "b") = some ⟨js "b", some (js "B"), some (js "r"), none⟩ ∧
     (lookupUser (leaveRoom wHubRoom ⟨js "a", some (js "A"), some (js "r"), none⟩).1
        (js "b")).map Session.roomId = some none ∧
     Out.frame (js "b") (.callEnded "alone") ∈
       (leaveRoom wHubRoom ⟨js "a", some (js "A"), some (js "r"), none⟩).2) :=
  ⟨claim_C3.1 false Hub.init Reachable.init,
   rfl, rfl, by decide,
   (claim_C3.2 wHubRoom ⟨js "a", some (js "A"), some (js "r"), none⟩ (js "r")
     ⟨js "r", [js "a", js "b"]⟩ rfl rfl (by decide)).1,
   rfl, rfl,
   ((claim_C3.2 wHubRoom ⟨js "a", some (js "A"), some (js "r"), none⟩ (js "r")
     ⟨js "r", [js "a", js "b"]⟩ rfl rfl (by decide)).2 (js "b")
     ⟨js "b", some (js "B"), some (js "r"), none⟩ rfl rfl).1,
   ((claim_C3.2 wHubRoom ⟨js "a", some (js "A"), some (js "r"), none⟩ (js "r")
     ⟨js "r", [js "a", js "b"]⟩ rfl rfl (by decide)).2 (js "b")
     ⟨js "b", some (js "B"), some (js "r"), none⟩ rfl rfl).2⟩

/-- Is `uid` a member of the room named `rid`? -/
def memberCheck (h : Hub) (rid uid : Str) : Bool :=
  match findRoom h rid with
  | some r => decide (uid ∈ r.members)
  | none => false

/-- Invariant of claim C2, first half: every member id of every room is an
existing session whose `roomId` is that room's id. -/
def roomsOk (h : Hub) : Prop :=
  ∀ r ∈ h.rooms, ∀ mid ∈ r.members,
    ((lookupUser h mid).map Session.roomId) = some (some r.id)

/-- Invariant of claim C2, second half: no session's `roomId` names a room
that does not exist. -/
def roomIdsOk (h : Hub) : Prop :=
  ∀ u ∈ h.users, u.roomId.all (fun rid => (findRoom h rid).isSome) = true

/-- The invariant exactly as claim C2 states it. -/
def claimedRoomInv (h : Hub) : Prop := roomsOk h ∧ roomIdsOk h

/-- Spec Invariant D: a session with a `roomId` is a member of that room. -/
def inRoomOk (h : Hub) : Prop :=
  ∀ u ∈ h.users, u.roomId.all (fun rid => memberCheck h rid u.id) = true

/-- No duplicate room ids (a JS `Map` cannot hold two entries per key). -/
def roomsNodup (h : Hub) : Prop := (h.rooms.map Room.id).Nodup

/-- Room identifiers (stored in rooms and in sessions) are non-empty
strings, as `makeId` guarantees. -/
def ridsNonNil (h : Hub) : Prop :=
  (∀ r ∈ h.rooms, r.id ≠ []) ∧ (∀ u ∈ h.users, u.roomId ≠ some [])

/-- The full room/session integrity invariant: the claimed invariant plus
the bookkeeping facts (key uniqueness of the JS maps, non-empty room ids,
and Invariant D) that make it inductive. -/
def HubInv (h : Hub) : Prop :=
  usersNodup h ∧ roomsNodup h ∧ ridsNonNil h ∧ roomsOk h ∧ inRoomOk h

instance (h : Hub) : Decidable (roomsOk h) := by
  unfold roomsOk
  infer_instance

instance (h : Hub) : Decidable (roomIdsOk h) := by
  unfold roomIdsOk
  infer_instance

instance (h : Hub) : Decidable (claimedRoomInv h) := by
  unfold claimedRoomInv
  infer_instance

instance (h : Hub) : Decidable (inRoomOk h) := by
  unfold inRoomOk
  infer_instance

instance (h : Hub) : Decidable (roomsNodup h) := by
  unfold roomsNodup
  infer_instance

instance (h : Hub) : Decidable (ridsNonNil h) := by
  unfold ridsNonNil
  infer_instance

instance (h : Hub) : Decidable (HubInv h) := by
  unfold HubInv
  infer_instance

/-- Pre-state of the claim C2 counterexample: Alice and Bob share room `r`
and every part of the claimed invariant (and more) holds. -/
def cexC2Pre : Hub :=
  ⟨[⟨js "a", some (js "A"), some (js "r"), none⟩,
    ⟨js "b", some (js "B"), some (js "r"), none⟩],
   [(js "A", js "a"), (js "B", js "b")],
   [⟨js "r", [js "a", js "b"]⟩], []⟩

/-- The offending frame: Bob accepts Alice's call but names a `roomId`
that is not his current room. -/
def cexC2Msg : JVal :=
  .obj [("type", .str (js "callAccept")), ("from", .str (js "a")),
        ("roomId", .str (js "zz"))]

/-- Counterexample to claim C2 as stated: the invariant holds before the
frame and is violated after it — the handler clears Bob's `roomId` yet
leaves him in room `r`'s member set. -/
theorem claim_C2_counterexample :
    claimedRoomInv cexC2Pre ∧ HubInv cexC2Pre ∧
    ¬ claimedRoomInv (dispatch false (js "f") cexC2Pre (js "b") cexC2Msg).1 :=
  ⟨by decide, by decide, by decide⟩

theorem lookupUser_mem {h : Hub} {uid : Str} {s : Session}
    (hl : lookupUser h uid = some s) : s ∈ h.users ∧ s.id = uid :=
  ⟨List.mem_of_find?_eq_some hl, by simpa using List.find?_some hl⟩

theorem lookupUser_of_mem {h : Hub} (hund : usersNodup h) {u : Session}
    (hu : u ∈ h.users) : lookupUser h u.id = some u := by
  cases hlk : lookupUser h u.id with
  | none =>
    rw [lookupUser, List.find?_eq_none] at hlk
    exact absurd (by simp) (hlk u hu)
  | some s =>
    obtain ⟨hsm, hsid⟩ := lookupUser_mem hlk
    rw [eq_of_id_eq hund s hsm u hu (by rw [hsid])]

theorem room_eq_of_id_eq {l : List Room} (hnd : (l.map Room.id).Nodup) :
    ∀ r1 ∈ l, ∀ r2 ∈ l, r1.id = r2.id → r1 = r2 := by
  induction l with
  | nil => simp
  | cons a l ih =>
    simp only [List.map_cons, List.nodup_cons] at hnd
    intro r1 h1 r2 h2 heq
    rcases List.mem_cons.mp h1 with rfl | h1m
    · rcases List.mem_cons.mp h2 with rfl | h2m
      · rfl
      · exact absurd (heq ▸ List.mem_map_of_mem Room.id h2m) hnd.1
    · rcases List.mem_cons.mp h2 with rfl | h2m
      · exact absurd (heq ▸ List.mem_map_of_mem Room.id h1m) hnd.1
      · exact ih hnd.2 r1 h1m r2 h2m heq

theorem findRoom_mem {h : Hub} {rid : Str} {r : Room}
    (hf : findRoom h rid = some r) : r ∈ h.rooms ∧ r.id = rid :=
  ⟨List.mem_of_find?_eq_some hf, by simpa using List.find?_some hf⟩

theorem findRoom_of_mem {h : Hub} (hrnd : roomsNodup h) {r : Room}
    (hr : r ∈ h.rooms) : findRoom h r.id = some r := by
  cases hf : findRoom h r.id with
  | none =>
    rw [findRoom, List.find?_eq_none] at hf
    exact absurd (by simp) (hf r hr)
  | some r2 =>
    obtain ⟨h2m, h2id⟩ := findRoom_mem hf
    rw [room_eq_of_id_eq hrnd r2 h2m r hr (by rw [h2id])]

theorem roomsOk_elim {h : Hub} (hi : roomsOk h) {r : Room} (hr : r ∈ h.rooms)
    {mid : Str} (hm : mid ∈ r.members) :
    ∃ s, lookupUser h mid = some s ∧ s.roomId = some r.id := by
  have hres := hi r hr mid hm
  cases hlk : lookupUser h mid with
  | none =>
    rw [hlk] at hres
    exact absurd hres (by simp)
  | some s =>
    rw [hlk] at hres
    simp only [Option.map_some', Option.some.injEq] at hres
    exact ⟨s, rfl, hres⟩

theorem inRoomOk_elim {h : Hub} (hi : inRoomOk h) {u : Session} (hu : u ∈ h.users)
    {rid : Str} (hr : u.roomId = some rid) :
    ∃ r, findRoom h rid = some r ∧ u.id ∈ r.members := by
  have hall := hi u hu
  rw [hr] at hall
  simp only [Option.all] at hall
  unfold memberCheck at hall
  cases hf : findRoom h rid with
  | none =>
    rw [hf] at hall
    exact absurd hall (by simp)
  | some r =>
    rw [hf] at hall
    simp only [decide_eq_true_eq] at hall
    exact ⟨r, rfl, hall⟩

theorem inRoomOk_intro {h : Hub}
    (hall : ∀ u ∈ h.users, ∀ rid, u.roomId = some rid →
      ∃ r, findRoom h rid = some r ∧ u.id ∈ r.members) : inRoomOk h := by
  intro u hu
  cases hrm : u.roomId with
  | none => rfl
  | some rid =>
    obtain ⟨r, hf, hm⟩ := hall u hu rid hrm
    simp only [Option.all]
    unfold memberCheck
    rw [hf]
    simpa using hm

theorem hubInv_claimed {h : Hub} (hi : HubInv h) : claimedRoomInv h := by
  obtain ⟨hund, hrnd, hnn, hP1, hD⟩ := hi
  refine ⟨hP1, ?_⟩
  intro u hu
  cases hrm : u.roomId with
  | none => rfl
  | some rid =>
    obtain ⟨r, hf, hm⟩ := inRoomOk_elim hD hu hrm
    simp only [Option.all, hf, Option.isSome]

theorem findRoom_setRoomMembers_self (h : Hub) (rid : Str) (ms : List Str) :
    findRoom (setRoomMembers h rid ms) rid =
      (findRoom h rid).map (fun r => ⟨r.id, ms⟩) := by
  simp only [findRoom, setRoomMembers, List.find?_map]
  have hpred : (fun r => decide (r.id = rid)) ∘
      (fun r : Room => if r.id = rid then (⟨r.id, ms⟩ : Room) else r) =
      fun r : Room => decide (r.id = rid) := by
    funext r
    by_cases hr : r.id = rid
    · simp [hr]
    · simp [hr]
  rw [hpred]
  cases hfind : h.rooms.find? (fun r => decide (r.id = rid)) with
  | none => rfl
  | some r0 =>
    have hr0 : r0.id = rid := by simpa using List.find?_some hfind
    simp [hr0]

theorem findRoom_setRoomMembers_other (h : Hub) (rid x : Str) (ms : List Str)
    (hne : x ≠ rid) :
    findRoom (setRoomMembers h rid ms) x = findRoom h x := by
  simp only [findRoom, setRoomMembers, List.find?_map]
  have hpred : (fun r => decide (r.id = x)) ∘
      (fun r : Room => if r.id = rid then (⟨r.id, ms⟩ : Room) else r) =
      fun r : Room => decide (r.id = x) := by
    funext r
    by_cases hr : r.id = rid
    · simp [hr]
    · simp [hr]
  rw [hpred]
  cases hfind : h.rooms.find? (fun r => decide (r.id = x)) with
  | none => rfl
  | some r0 =>
    have hr0 : r0.id = x := by simpa using List.find?_some hfind
    have : ¬ r0.id = rid := by
      rw [hr0]
      exact hne
    simp [this]

theorem findRoom_delRoom_other (h : Hub) (rid x : Str) (hne : x ≠ rid) :
    findRoom (delRoom h rid) x = findRoom h x := by
  show (h.rooms.filter (fun r => decide (r.id ≠ rid))).find? (fun r => decide (r.id = x)) =
    h.rooms.find? (fun r => decide (r.id = x))
  induction h.rooms with
  | nil => rfl
  | cons r rest ih =>
    rw [List.filter_cons]
    by_cases hr : r.id = rid
    · rw [if_neg (by simp [hr]), ih,
        List.find?_cons_of_neg _ (by simp [hr, Ne.symm hne])]
    · rw [if_pos (by simp [hr])]
      by_cases hx : r.id = x
      · rw [List.find?_cons_of_pos _ (by simp [hx]),
          List.find?_cons_of_pos _ (by simp [hx])]
      · rw [List.find?_cons_of_neg _ (by simp [hx]),
          List.find?_cons_of_neg _ (by simp [hx]), ih]

theorem mem_setAdd_self (x : Str) (s : List Str) : x ∈ setAdd x s := by
  unfold setAdd
  split
  · assumption
  · simp

theorem mem_setAdd_of_mem {y : Str} (x : Str) {s : List Str} (hy : y ∈ s) :
    y ∈ setAdd x s := by
  unfold setAdd
  split
  · exact hy
  · simp [hy]

theorem mem_setAdd_cases {y x : Str} {s : List Str} (hy : y ∈ setAdd x s) :
    y ∈ s ∨ y = x := by
  unfold setAdd at hy
  split at hy
  · exact Or.inl hy
  · rcases List.mem_append.mp hy with hl | hl
    · exact Or.inl hl
    · exact Or.inr (by simpa using hl)

theorem mem_setDel_of_ne {y x : Str} {s : List Str} (hy : y ∈ s) (hne : y ≠ x) :
    y ∈ setDel x s :=
  List.mem_filter.mpr ⟨hy, by simpa using hne⟩

theorem setDel_subset {y x : Str} {s : List Str} (hy : y ∈ setDel x s) : y ∈ s :=
  (List.mem_filter.mp hy).1

theorem usersNodup_updUser {h : Hub} {uid : Str} {f : Session → Session}
    (hid : ∀ s, (f s).id = s.id) (hund : usersNodup h) : usersNodup (updUser h uid f) := by
  show ((h.users.map fun s => if s.id = uid then f s else s).map Session.id).Nodup
  rw [List.map_map]
  have hcomp : (Session.id ∘ fun s => if s.id = uid then f s else s) = Session.id := by
    funext s
    by_cases hs : s.id = uid
    · simp [hs, hid]
    · simp [hs]
  rw [hcomp]
  exact hund

theorem roomsNodup_setRoomMembers {h : Hub} {rid : Str} {ms : List Str}
    (hrnd : roomsNodup h) : roomsNodup (setRoomMembers h rid ms) := by
  show ((h.rooms.map fun r => if r.id = rid then (⟨r.id, ms⟩ : Room) else r).map Room.id).Nodup
  rw [List.map_map]
  have hcomp : (Room.id ∘ fun r : Room => if r.id = rid then (⟨r.id, ms⟩ : Room) else r) =
      Room.id := by
    funext r
    by_cases hr : r.id = rid
    · simp [hr]
    · simp [hr]
  rw [hcomp]
  exact hrnd

theorem roomsNodup_delRoom (h : Hub) (rid : Str) (hrnd : roomsNodup h) :
    roomsNodup (delRoom h rid) :=
  (((List.filter_sublist h.rooms)).map Room.id).nodup hrnd

theorem roomsNodup_ensureRoom (h : Hub) (rid : Str) (hrnd : roomsNodup h) :
    roomsNodup (ensureRoom h rid) := by
  unfold ensureRoom
  split
  · exact hrnd
  · rename_i hnone
    show ((h.rooms ++ ([⟨rid, []⟩] : List Room)).map Room.id).Nodup
    rw [List.map_append]
    simp only [List.map_cons, List.map_nil]
    rw [List.nodup_append]
    refine ⟨hrnd, List.nodup_singleton rid, ?_⟩
    intro x hx hx2
    simp only [List.mem_singleton] at hx2
    obtain ⟨r0, hr0, hr0id⟩ := List.mem_map.mp hx
    have hfn : findRoom h rid = none := by
      cases hca : findRoom h rid with
      | none => rfl
      | some r2 => rw [hca] at hnone; exact absurd (by simp) hnone
    exact (findRoom_eq_none_forall hfn r0 hr0) (hr0id.trans hx2)

/-- Removing a member and clearing that member's `roomId` preserves the
full invariant (the kept-room half of `leaveRoom`). -/
theorem hubInv_setDel (h : Hub) (u : Session) (rid : Str) (room : Room)
    (humem : u ∈ h.users)
    (hrid : u.roomId = some rid)
    (hfr : findRoom h rid = some room)
    (hinv : HubInv h) :
    HubInv (setRoomMembers (updUser h u.id (fun s => { s with roomId := none })) rid
      (setDel u.id room.members)) := by
  obtain ⟨hund, hrnd, hnn, hP1, hD⟩ := hinv
  obtain ⟨hroomem, hroomid⟩ := findRoom_mem hfr
  refine ⟨?_, ?_, ⟨?_, ?_⟩, ?_, ?_⟩
  · exact usersNodup_updUser (fun s => rfl) hund
  · exact roomsNodup_setRoomMembers hrnd
  · -- room ids stay non-empty
    intro r' hr'
    obtain ⟨r0, hr0, heq⟩ := List.mem_map.mp hr'
    by_cases h0 : r0.id = rid
    · rw [if_pos h0] at heq
      rw [← heq]
      exact hnn.1 r0 hr0
    · rw [if_neg h0] at heq
      rw [← heq]
      exact hnn.1 r0 hr0
  · -- session room ids stay non-empty
    intro u' hu'
    obtain ⟨s0, hs0, heq⟩ := List.mem_map.mp hu'
    by_cases hs : s0.id = u.id
    · rw [if_pos hs] at heq
      rw [← heq]
      simp
    · rw [if_neg hs] at heq
      rw [← heq]
      exact hnn.2 s0 hs0
  · -- roomsOk
    intro r' hr' mid hm
    obtain ⟨r0, hr0, heq⟩ := List.mem_map.mp hr'
    by_cases h0 : r0.id = rid
    · rw [if_pos h0] at heq
      have hr0room : r0 = room :=
        room_eq_of_id_eq hrnd r0 hr0 room hroomem (h0.trans hroomid.symm)
      rw [← heq] at hm ⊢
      have hm2 : mid ∈ setDel u.id room.members := by
        have hmm : mid ∈ setDel u.id r0.members := by
          rw [hr0room] at hm ⊢
          exact hm
        rw [hr0room] at hmm
        exact hmm
      have hmidne : mid ≠ u.id := setDel_mem_ne hm2
      have hmidmem : mid ∈ room.members := setDel_subset hm2
      obtain ⟨s, hlk, hsrm⟩ := roomsOk_elim hP1 hroomem hmidmem
      have hlk2 : lookupUser (updUser h u.id (fun s => { s with roomId := none })) mid =
          some s :=
        (lookupUser_updUser_other h u.id mid (fun s => { s with roomId := none })
          (fun s => rfl) hmidne).trans hlk
      show ((lookupUser (updUser h u.id (fun s => { s with roomId := none })) mid).map
        Session.roomId) = some (some r0.id)
      rw [hlk2]
      simp only [Option.map_some', Option.some.injEq]
      rw [hsrm, hr0room, hroomid]
    · rw [if_neg h0] at heq
      rw [← heq] at hm ⊢
      obtain ⟨s, hlk, hsrm⟩ := roomsOk_elim hP1 hr0 hm
      have hmidne : mid ≠ u.id := by
        intro hcontra
        obtain ⟨hsm, hsid⟩ := lookupUser_mem hlk
        have hsu : s = u := eq_of_id_eq hund s hsm u humem (by rw [hsid, hcontra])
        rw [hsu, hrid] at hsrm
        exact h0 (by injection hsrm with hinj; rw [hinj])
      have hlk2 : lookupUser (updUser h u.id (fun s => { s with roomId := none })) mid =
          some s :=
        (lookupUser_updUser_other h u.id mid (fun s => { s with roomId := none })
          (fun s => rfl) hmidne).trans hlk
      show ((lookupUser (updUser h u.id (fun s => { s with roomId := none })) mid).map
        Session.roomId) = some (some r0.id)
      rw [hlk2]
      simpa using hsrm
  · -- inRoomOk
    apply inRoomOk_intro
    intro u' hu' rid0 hrm0
    obtain ⟨s0, hs0, heq⟩ := List.mem_map.mp hu'
    by_cases hs : s0.id = u.id
    · rw [if_pos hs] at heq
      rw [← heq] at hrm0
      exact absurd hrm0 (by simp)
    · rw [if_neg hs] at heq
      rw [← heq] at hrm0 ⊢
      obtain ⟨r1, hfr1, hmem1⟩ := inRoomOk_elim hD hs0 hrm0
      by_cases h1eq : rid0 = rid
      · subst h1eq
        have hr1room : r1 = room := by
          rw [hfr] at hfr1
          injection hfr1 with hinj
          rw [hinj]
        refine ⟨⟨room.id, setDel u.id room.members⟩, ?_, ?_⟩
        · have hfrU : findRoom (updUser h u.id (fun s => { s with roomId := none })) rid0 =
              some room := hfr
          rw [findRoom_setRoomMembers_self, hfrU]
          rfl
        · exact mem_setDel_of_ne (hr1room ▸ hmem1) hs
      · refine ⟨r1, ?_, hmem1⟩
        rw [findRoom_setRoomMembers_other _ _ _ _ h1eq]
        exact hfr1

theorem mem_delRoom {h : Hub} {rid : Str} {r : Room}
    (hr : r ∈ (delRoom h rid).rooms) : r ∈ h.rooms ∧ r.id ≠ rid := by
  obtain ⟨hm, hp⟩ := List.mem_filter.mp hr
  exact ⟨hm, by simpa using hp⟩

/-- Deleting a room with no members preserves the invariant. -/
theorem hubInv_delRoom_of_empty (h2 : Hub) (rid : Str) (roomB : Room)
    (hfr2 : findRoom h2 rid = some roomB) (hms : roomB.members = [])
    (hinv2 : HubInv h2) : HubInv (delRoom h2 rid) := by
  obtain ⟨hund, hrnd, hnn, hP1, hD⟩ := hinv2
  refine ⟨hund, roomsNodup_delRoom h2 rid hrnd, ⟨?_, hnn.2⟩, ?_, ?_⟩
  · intro r' hr'
    exact hnn.1 r' (mem_delRoom hr').1
  · intro r' hr' mid hm
    obtain ⟨hr'm, hr'ne⟩ := mem_delRoom hr'
    exact hP1 r' hr'm mid hm
  · apply inRoomOk_intro
    intro u' hu' rid0 hrm0
    obtain ⟨r1, hfr1, hmem1⟩ := inRoomOk_elim hD hu' hrm0
    by_cases h1eq : rid0 = rid
    · subst h1eq
      rw [hfr2] at hfr1
      injection hfr1 with hinj
      rw [← hinj] at hmem1
      rw [hms] at hmem1
      exact absurd hmem1 (by simp)
    · refine ⟨r1, ?_, hmem1⟩
      rw [findRoom_delRoom_other h2 rid rid0 h1eq]
      exact hfr1

/-- Clearing the sole remaining member's `roomId` and deleting the room
preserves the invariant. -/
theorem hubInv_clearLast_delRoom (h2 : Hub) (rid lastId : Str) (roomB : Room)
    (hfr2 : findRoom h2 rid = some roomB) (hms : roomB.members = [lastId])
    (hinv2 : HubInv h2) :
    HubInv (delRoom (updUser h2 lastId (fun s => { s with roomId := none })) rid) := by
  obtain ⟨hund, hrnd, hnn, hP1, hD⟩ := hinv2
  obtain ⟨hroomem, hroomid⟩ := findRoom_mem hfr2
  refine ⟨?_, ?_, ⟨?_, ?_⟩, ?_, ?_⟩
  · exact usersNodup_updUser (fun s => rfl) hund
  · exact roomsNodup_delRoom _ rid hrnd
  · intro r' hr'
    exact hnn.1 r' (mem_delRoom hr').1
  · intro u' hu'
    obtain ⟨s0, hs0, heq⟩ := List.mem_map.mp hu'
    by_cases hs : s0.id = lastId
    · rw [if_pos hs] at heq
      rw [← heq]
      simp
    · rw [if_neg hs] at heq
      rw [← heq]
      exact hnn.2 s0 hs0
  · -- roomsOk of the result
    intro r' hr' mid hm
    obtain ⟨hr'm, hr'ne⟩ := mem_delRoom hr'
    obtain ⟨s, hlk, hsrm⟩ := roomsOk_elim hP1 hr'm hm
    have hmidne : mid ≠ lastId := by
      intro hcontra
      have hlmem : lastId ∈ roomB.members := by
        rw [hms]
        exact List.mem_singleton.mpr rfl
      obtain ⟨s2, hlk2, hs2rm⟩ := roomsOk_elim hP1 hroomem hlmem
      rw [hcontra] at hlk
      rw [hlk2] at hlk
      injection hlk with hinj
      rw [hinj] at hs2rm
      rw [hsrm] at hs2rm
      injection hs2rm with hinj2
      exact hr'ne (hinj2.trans hroomid)
    have hlkU : lookupUser (updUser h2 lastId (fun s => { s with roomId := none })) mid =
        some s :=
      (lookupUser_updUser_other h2 lastId mid (fun s => { s with roomId := none })
        (fun s => rfl) hmidne).trans hlk
    show ((lookupUser (updUser h2 lastId (fun s => { s with roomId := none })) mid).map
      Session.roomId) = some (some r'.id)
    rw [hlkU]
    simpa using hsrm
  · apply inRoomOk_intro
    intro u' hu' rid0 hrm0
    obtain ⟨s0, hs0, heq⟩ := List.mem_map.mp hu'
    by_cases hs : s0.id = lastId
    · rw [if_pos hs] at heq
      rw [← heq] at hrm0
      exact absurd hrm0 (by simp)
    · rw [if_neg hs] at heq
      rw [← heq] at hrm0 ⊢
      obtain ⟨r1, hfr1, hmem1⟩ := inRoomOk_elim hD hs0 hrm0
      by_cases h1eq : rid0 = rid
      · subst h1eq
        rw [hfr2] at hfr1
        injection hfr1 with hinj
        rw [← hinj] at hmem1
        rw [hms] at hmem1
        exact absurd (List.mem_singleton.mp hmem1) hs
      · refine ⟨r1, ?_, hmem1⟩
        rw [findRoom_delRoom_other _ rid rid0 h1eq]
        exact hfr1

/-- `leaveRoom` preserves the full invariant. -/
theorem hubInv_leaveRoom (h : Hub) (u : Session)
    (humem : u ∈ h.users) (hinv : HubInv h) : HubInv (leaveRoom h u).1 := by
  cases hrid : u.roomId with
  | none =>
    unfold leaveRoom
    rw [hrid]
    exact hinv
  | some rid =>
    obtain ⟨room, hfr, humem2⟩ := inRoomOk_elim hinv.2.2.2.2 humem hrid
    have hinv2 := hubInv_setDel h u rid room humem hrid hfr hinv
    have hfr1 : findRoom (updUser h u.id (fun s => { s with roomId := none })) rid =
        some room := hfr
    have hfrB : findRoom (setRoomMembers
        (updUser h u.id (fun s => { s with roomId := none })) rid
        (setDel u.id room.members)) rid = some ⟨room.id, setDel u.id room.members⟩ := by
      rw [findRoom_setRoomMembers_self, hfr1]
      rfl
    unfold leaveRoom
    rw [hrid]
    dsimp only
    rw [hfr1]
    dsimp only
    by_cases hsmall : (setDel u.id room.members).length ≤ 1
    · rw [if_pos hsmall]
      cases hh : (setDel u.id room.members).head? with
      | none =>
        dsimp only
        have hnil : setDel u.id room.members = [] := by
          cases hcs : setDel u.id room.members with
          | nil => rfl
          | cons a t =>
            rw [hcs] at hh
            exact absurd hh (by simp)
        exact hubInv_delRoom_of_empty _ rid ⟨room.id, setDel u.id room.members⟩
          hfrB (by simpa using hnil) hinv2
      | some lastId =>
        dsimp only
        have hone : setDel u.id room.members = [lastId] := by
          cases hcs : setDel u.id room.members with
          | nil =>
            rw [hcs] at hh
            exact absurd hh (by simp)
          | cons a t =>
            rw [hcs] at hh hsmall
            simp only [List.head?_cons, Option.some.injEq] at hh
            simp only [List.length_cons] at hsmall
            have ht : t = [] := List.length_eq_zero.mp (by omega)
            rw [hh, ht]
        have hlmem : lastId ∈ setDel u.id room.members := by
          rw [hone]
          exact List.mem_singleton.mpr rfl
        have hlne : lastId ≠ u.id := setDel_mem_ne hlmem
        obtain ⟨sl, hlkl, hslr⟩ :=
          roomsOk_elim hinv.2.2.2.1 (findRoom_mem hfr).1 (setDel_subset hlmem)
        have hlkB : lookupUser (setRoomMembers
            (updUser h u.id (fun s => { s with roomId := none })) rid
            (setDel u.id room.members)) lastId = some sl :=
          (lookupUser_updUser_other h u.id lastId (fun s => { s with roomId := none })
            (fun s => rfl) hlne).trans hlkl
        rw [hlkB]
        dsimp only
        exact hubInv_clearLast_delRoom _ rid lastId
          ⟨room.id, setDel u.id room.members⟩ hfrB hone hinv2
    · rw [if_neg hsmall]
      exact hinv2

theorem map_id_of_forall {α : Type} {l : List α} {f : α → α}
    (hf : ∀ a ∈ l, f a = a) : l.map f = l := by
  induction l with
  | nil => rfl
  | cons a t ih =>
    simp only [List.map_cons]
    rw [hf a (List.mem_cons_self a t), ih (fun b hb => hf b (List.mem_cons_of_mem a hb))]

theorem lookupUser_updUser (h : Hub) (uid x : Str) (f : Session → Session)
    (hid : ∀ s, (f s).id = s.id) :
    lookupUser (updUser h uid f) x =
      (lookupUser h x).map (fun s => if s.id = uid then f s else s) := by
  simp only [lookupUser, updUser, List.find?_map]
  have hpred : (fun s => decide (s.id = x)) ∘ (fun s => if s.id = uid then f s else s) =
      fun s => decide (s.id = x) := by
    funext s
    by_cases hs : s.id = uid
    · simp [hs, hid]
    · simp [hs]
  rw [hpred]

theorem lookupUser_map_roomId_updUser (h : Hub) (uid x : Str) (f : Session → Session)
    (hid : ∀ s, (f s).id = s.id) (hrm : ∀ s, (f s).roomId = s.roomId) :
    (lookupUser (updUser h uid f) x).map Session.roomId =
      (lookupUser h x).map Session.roomId := by
  rw [lookupUser_updUser h uid x f hid]
  cases lookupUser h x with
  | none => rfl
  | some s =>
    simp only [Option.map_some']
    by_cases hs : s.id = uid
    · simp [hs, hrm]
    · simp [hs]

theorem updUser_noop (h : Hub) (uid : Str) (f : Session → Session)
    (hf : ∀ s ∈ h.users, s.id = uid → f s = s) : updUser h uid f = h := by
  have hmap : h.users.map (fun s => if s.id = uid then f s else s) = h.users := by
    apply map_id_of_forall
    intro a ha
    by_cases hs : a.id = uid
    · rw [if_pos hs]
      exact hf a ha hs
    · rw [if_neg hs]
  show { h with users := h.users.map (fun s => if s.id = uid then f s else s) } = h
  rw [hmap]

theorem updUser_set_roomId_noop (h : Hub) (uid : Str) (v : Option Str) (u : Session)
    (hund : usersNodup h) (hlk : lookupUser h uid = some u) (hv : u.roomId = v) :
    updUser h uid (fun s => { s with roomId := v }) = h := by
  apply updUser_noop
  intro s hs hsid
  obtain ⟨hum, huid⟩ := lookupUser_mem hlk
  have hsu : s = u := eq_of_id_eq hund s hs u hum (by rw [hsid, huid])
  subst hsu
  rw [← hv]

/-- `HubInv` only inspects `users` and `rooms`, so rewriting the name index
or the push-subscription table preserves it. -/
theorem hubInv_core (h : Hub) (ns : List (Str × Str)) (ps : List (Str × JVal))
    (hi : HubInv h) : HubInv ⟨h.users, ns, h.rooms, ps⟩ := hi

/-- `updUser` with a function that keeps both `id` and `roomId` (the
rate-limit and name updates) preserves the invariant. -/
theorem hubInv_updUser (h : Hub) (uid : Str) (f : Session → Session)
    (hid : ∀ s, (f s).id = s.id) (hrm : ∀ s, (f s).roomId = s.roomId)
    (hi : HubInv h) : HubInv (updUser h uid f) := by
  obtain ⟨hund, hrnd, hnn, hP1, hD⟩ := hi
  refine ⟨usersNodup_updUser hid hund, hrnd, ⟨hnn.1, ?_⟩, ?_, ?_⟩
  · intro u' hu'
    obtain ⟨s0, hs0, heq⟩ := List.mem_map.mp hu'
    by_cases hs : s0.id = uid
    · rw [if_pos hs] at heq
      rw [← heq, hrm]
      exact hnn.2 s0 hs0
    · rw [if_neg hs] at heq
      rw [← heq]
      exact hnn.2 s0 hs0
  · intro r hr mid hm
    rw [lookupUser_map_roomId_updUser h uid mid f hid hrm]
    exact hP1 r hr mid hm
  · apply inRoomOk_intro
    intro u' hu' rid0 hrm0
    obtain ⟨s0, hs0, heq⟩ := List.mem_map.mp hu'
    have hid0 : u'.id = s0.id := by
      rw [← heq]
      by_cases hs : s0.id = uid
      · rw [if_pos hs, hid]
      · rw [if_neg hs]
    have hrm0' : s0.roomId = some rid0 := by
      rw [← heq] at hrm0
      by_cases hs : s0.id = uid
      · rw [if_pos hs, hrm] at hrm0
        exact hrm0
      · rw [if_neg hs] at hrm0
        exact hrm0
    obtain ⟨r, hfr, hmem⟩ := inRoomOk_elim hD hs0 hrm0'
    refine ⟨r, hfr, ?_⟩
    rw [hid0]
    exact hmem

/-- The `signal` handler never changes the hub state. -/
theorem handleSignal_fst (h : Hub) (user : Session) (msg : JVal) :
    (handleSignal h user msg).1 = h := by
  unfold handleSignal
  split
  · rfl
  · split
    · rfl
    · split
      · rfl
      · split
        · rfl
        · rfl

/-- The `chatSend` handler never changes the hub state. -/
theorem handleChatSend_fst (h : Hub) (uid : Str) (user : Session) (msg : JVal) :
    (handleChatSend h uid user msg).1 = h := by
  unfold handleChatSend
  split
  · rfl
  · dsimp only
    split
    · split
      · rfl
      · split
        · rfl
        · split
          · rfl
          · rfl
    · rfl

/-- The `setName` handler preserves the invariant: it only rewrites the
name index and the session's `name` field. -/
theorem hubInv_handleSetName (h : Hub) (uid : Str) (user : Session) (msg : JVal)
    (hi : HubInv h) : HubInv (handleSetName h uid user msg).1 := by
  unfold handleSetName
  split
  · exact hi
  · split
    · exact hi
    · dsimp only
      exact hubInv_core _ _ _ (hubInv_updUser _ uid _ (fun s => rfl) (fun s => rfl)
        (hubInv_core h _ _ hi))

/-- Adding a session with no current room to an existing room and pointing
its `roomId` at that room preserves the invariant (one membership step of
the `callStart` state change). -/
theorem hubInv_addMember (h : Hub) (rid : Str) (room : Room) (c : Session)
    (hfr : findRoom h rid = some room) (hc : c ∈ h.users) (hcrm : c.roomId = none)
    (hrid : rid ≠ []) (hi : HubInv h) :
    HubInv (updUser (setRoomMembers h rid (setAdd c.id room.members)) c.id
      (fun s => { s with roomId := some rid })) := by
  obtain ⟨hund, hrnd, hnn, hP1, hD⟩ := hi
  obtain ⟨hroomem, hroomid⟩ := findRoom_mem hfr
  have hlkc : lookupUser h c.id = some c := lookupUser_of_mem hund hc
  have hcnm : c.id ∉ room.members := by
    intro hmem
    obtain ⟨s, hlk, hsrm⟩ := roomsOk_elim hP1 hroomem hmem
    rw [hlkc] at hlk
    injection hlk with hinj
    rw [← hinj, hcrm] at hsrm
    exact absurd hsrm (by simp)
  refine ⟨?_, ?_, ⟨?_, ?_⟩, ?_, ?_⟩
  · exact usersNodup_updUser (fun s => rfl) hund
  · exact roomsNodup_setRoomMembers hrnd
  · intro r' hr'
    obtain ⟨r0, hr0, heq⟩ := List.mem_map.mp hr'
    by_cases h0 : r0.id = rid
    · rw [if_pos h0] at heq
      rw [← heq]
      exact hnn.1 r0 hr0
    · rw [if_neg h0] at heq
      rw [← heq]
      exact hnn.1 r0 hr0
  · intro u' hu'
    obtain ⟨s0, hs0, heq⟩ := List.mem_map.mp hu'
    by_cases hs : s0.id = c.id
    · rw [if_pos hs] at heq
      rw [← heq]
      intro hcontra
      exact hrid (Option.some.inj hcontra)
    · rw [if_neg hs] at heq
      rw [← heq]
      exact hnn.2 s0 hs0
  · -- roomsOk
    intro r' hr' mid hm
    obtain ⟨r0, hr0, heq⟩ := List.mem_map.mp hr'
    by_cases h0 : r0.id = rid
    · rw [if_pos h0] at heq
      have hr0room : r0 = room :=
        room_eq_of_id_eq hrnd r0 hr0 room hroomem (h0.trans hroomid.symm)
      rw [← heq] at hm ⊢
      have hm' : mid ∈ setAdd c.id room.members := hm
      rcases mem_setAdd_cases hm' with hmm | hceq
      · have hmidne : mid ≠ c.id := fun hcon => hcnm (hcon ▸ hmm)
        obtain ⟨s, hlk, hsrm⟩ := roomsOk_elim hP1 hroomem hmm
        have hlkT : lookupUser (updUser (setRoomMembers h rid (setAdd c.id room.members))
            c.id (fun s => { s with roomId := some rid })) mid = some s := by
          rw [lookupUser_updUser_other _ c.id mid (fun s => { s with roomId := some rid }) (fun s => rfl) hmidne]
          exact hlk
        rw [hlkT]
        show some s.roomId = some (some r0.id)
        rw [hsrm, hroomid, h0]
      · subst hceq
        have hlkT : lookupUser (updUser (setRoomMembers h rid (setAdd c.id room.members))
            c.id (fun s => { s with roomId := some rid })) c.id = some
            { c with roomId := some rid } := by
          rw [lookupUser_updUser_self _ c.id (fun s => { s with roomId := some rid })
            (fun s => rfl)]
          show ((lookupUser h c.id).map (fun s => { s with roomId := some rid })) = _
          rw [hlkc]
          rfl
        rw [hlkT]
        show some (some rid) = some (some r0.id)
        rw [h0]
    · rw [if_neg h0] at heq
      rw [← heq] at hm ⊢
      obtain ⟨s, hlk, hsrm⟩ := roomsOk_elim hP1 hr0 hm
      have hmidne : mid ≠ c.id := by
        intro hcon
        rw [hcon, hlkc] at hlk
        injection hlk with hinj
        rw [← hinj, hcrm] at hsrm
        exact absurd hsrm (by simp)
      have hlkT : lookupUser (updUser (setRoomMembers h rid (setAdd c.id room.members))
          c.id (fun s => { s with roomId := some rid })) mid = some s := by
        rw [lookupUser_updUser_other _ c.id mid (fun s => { s with roomId := some rid }) (fun s => rfl) hmidne]
        exact hlk
      rw [hlkT]
      show some s.roomId = some (some r0.id)
      rw [hsrm]
  · -- inRoomOk
    apply inRoomOk_intro
    intro u' hu' rid0 hrm0
    obtain ⟨s0, hs0, heq⟩ := List.mem_map.mp hu'
    by_cases hs : s0.id = c.id
    · rw [if_pos hs] at heq
      have hrid0 : rid0 = rid := by
        rw [← heq] at hrm0
        exact (Option.some.inj hrm0).symm
      subst hrid0
      refine ⟨⟨room.id, setAdd c.id room.members⟩, ?_, ?_⟩
      · show findRoom (setRoomMembers h rid0 (setAdd c.id room.members)) rid0 = _
        rw [findRoom_setRoomMembers_self, hfr]
        rfl
      · rw [← heq]
        show s0.id ∈ setAdd c.id room.members
        rw [hs]
        exact mem_setAdd_self c.id room.members
    · rw [if_neg hs] at heq
      rw [← heq] at hrm0 ⊢
      obtain ⟨r1, hfr1, hmem1⟩ := inRoomOk_elim hD hs0 hrm0
      by_cases h1eq : rid0 = rid
      · subst h1eq
        have hr1room : r1 = room := by
          rw [hfr] at hfr1
          injection hfr1 with hinj
          rw [hinj]
        refine ⟨⟨room.id, setAdd c.id room.members⟩, ?_, ?_⟩
        · show findRoom (setRoomMembers h rid0 (setAdd c.id room.members)) rid0 = _
          rw [findRoom_setRoomMembers_self, hfr]
          rfl
        · exact mem_setAdd_of_mem c.id (hr1room ▸ hmem1)
      · refine ⟨r1, ?_, hmem1⟩
        show findRoom (setRoomMembers h rid (setAdd c.id room.members)) rid0 = some r1
        rw [findRoom_setRoomMembers_other _ _ _ _ h1eq]
        exact hfr1

theorem setAdd_of_mem {x : Str} {s : List Str} (hx : x ∈ s) : setAdd x s = s := by
  unfold setAdd
  rw [if_pos hx]

theorem setRoomMembers_setRoomMembers (h : Hub) (rid : Str) (ms1 ms2 : List Str) :
    setRoomMembers (setRoomMembers h rid ms1) rid ms2 = setRoomMembers h rid ms2 := by
  show { h with rooms := ((h.rooms.map (fun r : Room =>
      if r.id = rid then (⟨r.id, ms1⟩ : Room) else r)).map
      (fun r : Room => if r.id = rid then (⟨r.id, ms2⟩ : Room) else r)) } =
    { h with rooms :=
      h.rooms.map (fun r : Room => if r.id = rid then (⟨r.id, ms2⟩ : Room) else r) }
  rw [List.map_map]
  have hfun : ((fun r : Room => if r.id = rid then (⟨r.id, ms2⟩ : Room) else r) ∘
      (fun r : Room => if r.id = rid then (⟨r.id, ms1⟩ : Room) else r)) =
      (fun r : Room => if r.id = rid then (⟨r.id, ms2⟩ : Room) else r) := by
    funext r
    by_cases hr : r.id = rid
    · simp [hr]
    · simp [hr]
  rw [hfun]

/-- `ensureRoom` preserves the invariant: an existing room is kept, a fresh
room starts with no members. -/
theorem hubInv_ensureRoom (h : Hub) (rid : Str) (hrid : rid ≠ []) (hi : HubInv h) :
    HubInv (ensureRoom h rid) := by
  unfold ensureRoom
  split
  · exact hi
  · rename_i hnone
    have hfr : findRoom h rid = none := by
      cases hca : findRoom h rid with
      | none => rfl
      | some r2 =>
        rw [hca] at hnone
        exact absurd (by simp) hnone
    obtain ⟨hund, hrnd, hnn, hP1, hD⟩ := hi
    have heq : ensureRoom h rid = { h with rooms := h.rooms ++ [(⟨rid, []⟩ : Room)] } := by
      unfold ensureRoom
      rw [if_neg hnone]
    refine ⟨hund, ?_, ⟨?_, hnn.2⟩, ?_, ?_⟩
    · rw [← heq]
      exact roomsNodup_ensureRoom h rid hrnd
    · intro r' hr'
      rcases List.mem_append.mp hr' with hl | hl
      · exact hnn.1 r' hl
      · rw [List.mem_singleton.mp hl]
        exact hrid
    · intro r' hr' mid hm
      rcases List.mem_append.mp hr' with hl | hl
      · exact hP1 r' hl mid hm
      · rw [List.mem_singleton.mp hl] at hm
        exact absurd hm (by simp)
    · apply inRoomOk_intro
      intro u' hu' rid0 hrm0
      obtain ⟨r1, hfr1, hmem1⟩ := inRoomOk_elim hD hu' hrm0
      refine ⟨r1, ?_, hmem1⟩
      show (h.rooms ++ [(⟨rid, []⟩ : Room)]).find? (fun r => decide (r.id = rid0)) = some r1
      rw [List.find?_append]
      rw [show List.find? (fun r => decide (r.id = rid0)) h.rooms = some r1 from hfr1]
      rfl

/-- Adding two roomless sessions to an existing room and pointing both
`roomId`s at it preserves the invariant (the fresh-call half of
`callStart`). -/
theorem hubInv_addTwo (h : Hub) (rid : Str) (room : Room) (u c : Session)
    (hfr : findRoom h rid = some room) (hu : u ∈ h.users) (hc : c ∈ h.users)
    (hurm : u.roomId = none) (hcrm : c.roomId = none) (hne : c.id ≠ u.id)
    (hrid : rid ≠ []) (hi : HubInv h) :
    HubInv (updUser (updUser (setRoomMembers h rid
        (setAdd c.id (setAdd u.id room.members))) u.id
        (fun s => { s with roomId := some rid })) c.id
        (fun s => { s with roomId := some rid })) := by
  have hA1 : HubInv (updUser (setRoomMembers h rid (setAdd u.id room.members)) u.id
      (fun s => { s with roomId := some rid })) :=
    hubInv_addMember h rid room u hfr hu hurm hrid hi
  have hfrA1 : findRoom (updUser (setRoomMembers h rid (setAdd u.id room.members)) u.id
      (fun s => { s with roomId := some rid })) rid =
      some ⟨room.id, setAdd u.id room.members⟩ := by
    show findRoom (setRoomMembers h rid (setAdd u.id room.members)) rid = _
    rw [findRoom_setRoomMembers_self, hfr]
    rfl
  have hlkcA1 : lookupUser (updUser (setRoomMembers h rid (setAdd u.id room.members)) u.id
      (fun s => { s with roomId := some rid })) c.id = some c := by
    rw [lookupUser_updUser_other _ u.id c.id (fun s => { s with roomId := some rid })
      (fun s => rfl) hne]
    show lookupUser h c.id = some c
    exact lookupUser_of_mem hi.1 hc
  have hA2 : HubInv (updUser (setRoomMembers (updUser (setRoomMembers h rid
      (setAdd u.id room.members)) u.id (fun s => { s with roomId := some rid })) rid
      (setAdd c.id (setAdd u.id room.members))) c.id
      (fun s => { s with roomId := some rid })) :=
    hubInv_addMember _ rid ⟨room.id, setAdd u.id room.members⟩ c hfrA1
      (lookupUser_mem hlkcA1).1 hcrm hrid hA1
  have hcomm : setRoomMembers (updUser (setRoomMembers h rid (setAdd u.id room.members))
      u.id (fun s => { s with roomId := some rid })) rid
      (setAdd c.id (setAdd u.id room.members)) =
      updUser (setRoomMembers (setRoomMembers h rid (setAdd u.id room.members)) rid
        (setAdd c.id (setAdd u.id room.members))) u.id
        (fun s => { s with roomId := some rid }) := rfl
  rw [hcomm, setRoomMembers_setRoomMembers] at hA2
  exact hA2

/-- The `callStart` handler preserves the invariant. -/
theorem hubInv_handleCallStart (h : Hub) (fresh uid : Str) (user : Session) (msg : JVal)
    (hlku : lookupUser h uid = some user) (hfresh : fresh ≠ [])
    (hi : HubInv h) : HubInv (handleCallStart h fresh uid user msg).1 := by
  have huser : user ∈ h.users := (lookupUser_mem hlku).1
  have huid : user.id = uid := (lookupUser_mem hlku).2
  unfold handleCallStart
  split
  · exact hi
  · rename_i toId hto
    dsimp only
    split
    · exact hi
    · split
      · exact hi
      · rename_i hnil callee hlkc0
        have hcid : callee.id = toId := by simpa using List.find?_some hlkc0
        have hcallee : callee ∈ h.users := List.mem_of_find?_eq_some hlkc0
        split
        · exact hi
        · split
          · exact hi
          · split
            · exact hi
            · rename_i hne hready hbusy
              have hcrm : callee.roomId = none := by
                cases hcc : callee.roomId with
                | none => rfl
                | some r =>
                  exfalso
                  apply hbusy
                  rw [hcc]
                  have hrne : r ≠ [] := by
                    have hnn2 := hi.2.2.1.2 callee hcallee
                    rw [hcc] at hnn2
                    intro h0
                    rw [h0] at hnn2
                    exact hnn2 rfl
                  simp [optStrTruthy, hrne]
              have hccne : callee.id ≠ user.id := by
                rw [hcid, huid]
                exact hne
              rw [← huid]
              cases hur : user.roomId with
              | some R =>
                simp only [Option.getD_some]
                have hRne : R ≠ [] := by
                  have hnn2 := hi.2.2.1.2 user huser
                  rw [hur] at hnn2
                  intro h0
                  rw [h0] at hnn2
                  exact hnn2 rfl
                obtain ⟨roomR, hfrR, humemR⟩ := inRoomOk_elim hi.2.2.2.2 huser hur
                have hens : ensureRoom h R = h := by
                  unfold ensureRoom
                  rw [if_pos (by rw [hfrR]; rfl)]
                rw [hens, hfrR]
                simp only [Option.getD_some]
                rw [setAdd_of_mem humemR]
                have hnoop : updUser (setRoomMembers h R (setAdd callee.id roomR.members))
                    user.id (fun s => { s with roomId := some R }) =
                    setRoomMembers h R (setAdd callee.id roomR.members) := by
                  apply updUser_set_roomId_noop _ user.id (some R) user
                  · exact hi.1
                  · show lookupUser h user.id = some user
                    exact lookupUser_of_mem hi.1 huser
                  · exact hur
                rw [hnoop]
                exact hubInv_addMember h R roomR callee hfrR hcallee hcrm hRne hi
              | none =>
                simp only [Option.getD_none]
                cases hex : findRoom h fresh with
                | some room0 =>
                  have hens : ensureRoom h fresh = h := by
                    unfold ensureRoom
                    rw [if_pos (by rw [hex]; rfl)]
                  rw [hens, hex]
                  simp only [Option.getD_some]
                  exact hubInv_addTwo h fresh room0 user callee hex huser hcallee hur hcrm
                    hccne hfresh hi
                | none =>
                  have hens : ensureRoom h fresh =
                      { h with rooms := h.rooms ++ [(⟨fresh, []⟩ : Room)] } := by
                    unfold ensureRoom
                    rw [if_neg (by rw [hex]; simp)]
                  have hfa : findRoom { h with rooms := h.rooms ++ [(⟨fresh, []⟩ : Room)] }
                      fresh = some ⟨fresh, []⟩ := by
                    simp only [findRoom, List.find?_append]
                    rw [show List.find? (fun r => decide (r.id = fresh)) h.rooms = none
                      from hex]
                    simp
                  rw [hens, hfa]
                  simp only [Option.getD_some]
                  have hiE : HubInv { h with rooms := h.rooms ++ [(⟨fresh, []⟩ : Room)] } := by
                    have hie := hubInv_ensureRoom h fresh hfresh hi
                    rw [hens] at hie
                    exact hie
                  exact hubInv_addTwo { h with rooms := h.rooms ++ [(⟨fresh, []⟩ : Room)] }
                    fresh ⟨fresh, []⟩ user callee hfa huser hcallee hur hcrm hccne hfresh hiE

/-- The guard of the `callReject` handler's leave branch (`roomId &&
user.roomId === roomId` on the effective room id). -/
def rejectGuard (user : Session) (msg : JVal) : Bool :=
  match (match jAsStr (jGet msg "roomId") with
         | some r => some r
         | none => user.roomId) with
  | some r => decide (r ≠ []) && decide (user.roomId = some r)
  | none => false

/-- A `callReject` frame is room-safe when the sender is not in a room, or
the effective room id matches the sender's current room (the handler then
leaves the room instead of merely clearing `roomId`). -/
def rejectSafe (user : Session) (msg : JVal) : Prop :=
  user.roomId = none ∨ rejectGuard user msg = true

/-- The resolved caller's `roomId`, if a caller resolves (`msg.from` a
non-empty string naming a session). -/
def callerRoom (h : Hub) (msg : JVal) : Option (Option Str) :=
  match jAsStr (jGet msg "from") with
  | some f => if f ≠ [] then (lookupUser h f).map Session.roomId else none
  | none => none

theorem callerRoom_eq (h : Hub) (msg : JVal) :
    callerRoom h msg = (match jAsStr (jGet msg "from") with
      | some f => if f ≠ [] then lookupUser h f else none
      | none => none).map Session.roomId := by
  unfold callerRoom
  cases jAsStr (jGet msg "from") with
  | none => rfl
  | some fstr =>
    by_cases hf : fstr = []
    · show (if fstr ≠ [] then (lookupUser h fstr).map Session.roomId else none) =
        (if fstr ≠ [] then lookupUser h fstr else none).map Session.roomId
      rw [if_neg (fun hc => hc hf), if_neg (fun hc => hc hf)]
      rfl
    · show (if fstr ≠ [] then (lookupUser h fstr).map Session.roomId else none) =
        (if fstr ≠ [] then lookupUser h fstr else none).map Session.roomId
      rw [if_pos hf, if_pos hf]

/-- A `callAccept` frame is room-safe when the sender is not in a room, or
the caller resolves and both sessions already sit in the named room. -/
def acceptSafe (h : Hub) (user : Session) (msg : JVal) : Prop :=
  user.roomId = none ∨
  (match callerRoom h msg,
        (match jAsStr (jGet msg "roomId") with
          | some r => some r
          | none => user.roomId) with
   | some crm, some rid => rid ≠ [] ∧ crm = some rid ∧ user.roomId = some rid
   | _, _ => False)

/-- The `callReject` handler preserves the invariant on room-safe frames. -/
theorem hubInv_handleCallReject (h : Hub) (uid : Str) (user : Session) (msg : JVal)
    (hlku : lookupUser h uid = some user) (hsafe : rejectSafe user msg)
    (hi : HubInv h) : HubInv (handleCallReject h uid user msg).1 := by
  have huser : user ∈ h.users := (lookupUser_mem hlku).1
  unfold handleCallReject
  dsimp only
  split
  · exact hubInv_leaveRoom h user huser hi
  · rename_i hg
    rcases hsafe with hnone | hguard
    · have hnoop : updUser h uid (fun s => { s with roomId := none }) = h :=
        updUser_set_roomId_noop h uid none user hi.1 hlku hnone
      show HubInv (updUser h uid (fun s => { s with roomId := none }))
      rw [hnoop]
      exact hi
    · exact absurd hguard hg

/-- The `callAccept` handler preserves the invariant on room-safe frames. -/
theorem hubInv_handleCallAccept (h : Hub) (uid : Str) (user : Session) (msg : JVal)
    (hlku : lookupUser h uid = some user) (hsafe : acceptSafe h user msg)
    (hi : HubInv h) : HubInv (handleCallAccept h uid user msg).1 := by
  have huser : user ∈ h.users := (lookupUser_mem hlku).1
  unfold handleCallAccept
  dsimp only
  split
  · rename_i caller rid hcq hrq
    split
    · rename_i hcond
      split
      · rename_i hfrnone
        exfalso
        obtain ⟨r1, hfr1, hmem1⟩ := inRoomOk_elim hi.2.2.2.2 huser hcond.2.2
        rw [hfr1] at hfrnone
        exact Option.noConfusion hfrnone
      · exact hi
    · rename_i hcond
      rcases hsafe with hnone | hguard
      · show HubInv (updUser h uid (fun s => { s with roomId := none }))
        rw [updUser_set_roomId_noop h uid none user hi.1 hlku hnone]
        exact hi
      · exfalso
        have hcr : callerRoom h msg = some caller.roomId := by
          rw [callerRoom_eq, hcq]
          rfl
        rw [hcr, hrq] at hguard
        exact hcond hguard
  · rename_i hother
    rcases hsafe with hnone | hguard
    · show HubInv (updUser h uid (fun s => { s with roomId := none }))
      rw [updUser_set_roomId_noop h uid none user hi.1 hlku hnone]
      exact hi
    · exfalso
      cases hc2 : (match jAsStr (jGet msg "from") with
                   | some f => if f ≠ [] then lookupUser h f else none
                   | none => none) with
      | none =>
        have hcr : callerRoom h msg = none := by
          rw [callerRoom_eq, hc2]
          rfl
        rw [hcr] at hguard
        exact hguard
      | some caller =>
        cases hr2 : (match jAsStr (jGet msg "roomId") with
                     | some r => some r
                     | none => user.roomId) with
        | none =>
          have hcr : callerRoom h msg = some caller.roomId := by
            rw [callerRoom_eq, hc2]
            rfl
          rw [hcr, hr2] at hguard
          exact hguard
        | some rid =>
          exact hother caller rid hc2 hr2

/-- After `leaveRoom`, the leaver's session (looked up by id) has no
`roomId`. -/
theorem leaveRoom_clears (h : Hub) (u : Session) (rid : Str) (hrid : u.roomId = some rid) :
    ∀ s ∈ (leaveRoom h u).1.users, s.id = u.id → s.roomId = none := by
  have hbase : ∀ s ∈ (updUser h u.id (fun t => { t with roomId := none })).users,
      s.id = u.id → s.roomId = none := by
    intro s hs hsid
    obtain ⟨s0, hs0, heq⟩ := List.mem_map.mp hs
    by_cases h0 : s0.id = u.id
    · rw [if_pos h0] at heq
      rw [← heq]
    · rw [if_neg h0] at heq
      rw [← heq] at hsid
      exact absurd hsid h0
  unfold leaveRoom
  rw [hrid]
  dsimp only
  split
  · exact hbase
  · rename_i room hfr
    split
    · split
      · rename_i lastId hheq
        split
        · rename_i last hlkl
          intro s hs hsid
          obtain ⟨s1, hs1, heq⟩ := List.mem_map.mp hs
          by_cases h2eq : s1.id = lastId
          · rw [if_pos h2eq] at heq
            rw [← heq]
          · rw [if_neg h2eq] at heq
            rw [← heq] at hsid ⊢
            exact hbase s1 hs1 hsid
        · exact fun s hs hsid => hbase s hs hsid
      · exact fun s hs hsid => hbase s hs hsid
    · exact fun s hs hsid => hbase s hs hsid

/-- Dropping a session that is in no room preserves the invariant. -/
theorem hubInv_dropUser (h : Hub) (uid : Str)
    (hnomem : ∀ s ∈ h.users, s.id = uid → s.roomId = none) (hi : HubInv h) :
    HubInv { h with users := h.users.filter (fun s => s.id ≠ uid) } := by
  obtain ⟨hund, hrnd, hnn, hP1, hD⟩ := hi
  have hundF : usersNodup { h with users := h.users.filter (fun s => s.id ≠ uid) } := by
    show ((h.users.filter (fun s => decide (s.id ≠ uid))).map Session.id).Nodup
    exact (((List.filter_sublist h.users)).map Session.id).nodup hund
  refine ⟨hundF, hrnd, ⟨hnn.1, ?_⟩, ?_, ?_⟩
  · intro u' hu'
    exact hnn.2 u' (List.mem_filter.mp hu').1
  · intro r hr mid hm
    obtain ⟨s, hlk, hsrm⟩ := roomsOk_elim hP1 hr hm
    have hsne : s.id ≠ uid := by
      intro hcon
      have hn := hnomem s (lookupUser_mem hlk).1 hcon
      rw [hn] at hsrm
      exact Option.noConfusion hsrm
    have hsmemF : s ∈ h.users.filter (fun t => decide (t.id ≠ uid)) :=
      List.mem_filter.mpr ⟨(lookupUser_mem hlk).1, by simpa using hsne⟩
    have hlkF : lookupUser { h with users := h.users.filter (fun t => t.id ≠ uid) } s.id =
        some s := lookupUser_of_mem hundF hsmemF
    rw [← (lookupUser_mem hlk).2]
    rw [hlkF]
    show some s.roomId = some (some r.id)
    rw [hsrm]
  · apply inRoomOk_intro
    intro u' hu' rid0 hrm0
    have hu'm : u' ∈ h.users := (List.mem_filter.mp hu').1
    obtain ⟨r1, hfr1, hmem1⟩ := inRoomOk_elim hD hu'm hrm0
    exact ⟨r1, hfr1, hmem1⟩

/-- `closeUser` (disconnect) preserves the invariant. -/
theorem hubInv_closeUser (h : Hub) (uid : Str) (hi : HubInv h) :
    HubInv (closeUser h uid).1 := by
  unfold closeUser
  split
  · exact hi
  · rename_i u hlk
    dsimp only
    have hstep : HubInv (if u.roomId.isSome then leaveRoom h u else (h, [])).1 ∧
        (∀ s ∈ (if u.roomId.isSome then leaveRoom h u else (h, [])).1.users,
          s.id = uid → s.roomId = none) := by
      cases hur : u.roomId with
      | none =>
        constructor
        · show HubInv h
          exact hi
        · show ∀ s ∈ h.users, s.id = uid → s.roomId = none
          intro s hs hsid
          have hsu : s = u := eq_of_id_eq hi.1 s hs u (lookupUser_mem hlk).1
            (by rw [hsid, (lookupUser_mem hlk).2])
          rw [hsu]
          exact hur
      | some rid =>
        constructor
        · show HubInv (leaveRoom h u).1
          exact hubInv_leaveRoom h u (lookupUser_mem hlk).1 hi
        · show ∀ s ∈ (leaveRoom h u).1.users, s.id = uid → s.roomId = none
          intro s hs hsid
          apply leaveRoom_clears h u rid hur s hs
          rw [hsid, (lookupUser_mem hlk).2]
    have h2inv : HubInv { (if u.roomId.isSome then leaveRoom h u else (h, [])).1 with
        users := (if u.roomId.isSome then leaveRoom h u else (h, [])).1.users.filter
          (fun s => s.id ≠ uid) } := hubInv_dropUser _ uid hstep.2 hstep.1
    have h3inv : HubInv { { (if u.roomId.isSome then leaveRoom h u else (h, [])).1 with
        users := (if u.roomId.isSome then leaveRoom h u else (h, [])).1.users.filter
          (fun s => s.id ≠ uid) } with
        pushSubs := mapDel uid
          ((if u.roomId.isSome then leaveRoom h u else (h, [])).1.pushSubs) } :=
      hubInv_core _ _ _ h2inv
    exact hubInv_core _ _ _ h3inv

/-- `dispatch` preserves the invariant for frames whose `callReject` /
`callAccept` guards are room-safe. -/
theorem hubInv_dispatch (pe : Bool) (fresh : Str) (h : Hub) (uid : Str) (msg : JVal)
    (hfresh : fresh ≠ [])
    (hsafe : ∀ user ty, lookupUser h uid = some user → jGetStr msg "type" = some ty →
      (msgTypeOf ty = .callReject → rejectSafe user msg) ∧
      (msgTypeOf ty = .callAccept → acceptSafe h user msg))
    (hi : HubInv h) : HubInv (dispatch pe fresh h uid msg).1 := by
  unfold dispatch
  split
  · exact hi
  · rename_i user hlku
    split
    · exact hi
    · rename_i ty hty
      have hsafe2 := hsafe user ty hlku hty
      split
      · -- pushSubscribe
        split
        · exact hi
        · split
          · exact hubInv_core _ _ _ hi
          · exact hi
      · -- pushUnsubscribe
        exact hubInv_core _ _ _ hi
      · -- setName
        exact hubInv_handleSetName h uid user msg hi
      · -- named-state branches
        split
        · exact hi
        · split
          · exact hubInv_handleCallStart h fresh uid user msg hlku hfresh hi
          · rename_i hmt
            exact hubInv_handleCallReject h uid user msg hlku (hsafe2.1 hmt) hi
          · rename_i hmt
            exact hubInv_handleCallAccept h uid user msg hlku (hsafe2.2 hmt) hi
          · rw [handleSignal_fst]
            exact hi
          · dsimp only
            exact hubInv_leaveRoom h user (lookupUser_mem hlku).1 hi
          · rw [handleChatSend_fst]
            exact hi
          · exact hi

instance (user : Session) (msg : JVal) : Decidable (rejectSafe user msg) := by
  unfold rejectSafe
  infer_instance

instance (h : Hub) (user : Session) (msg : JVal) : Decidable (acceptSafe h user msg) := by
  unfold acceptSafe
  cases callerRoom h msg with
  | none =>
    cases (match jAsStr (jGet msg "roomId") with
           | some r => some r
           | none => user.roomId) with
    | none => exact (inferInstance : Decidable (user.roomId = none ∨ False))
    | some rid => exact (inferInstance : Decidable (user.roomId = none ∨ False))
  | some crm =>
    cases (match jAsStr (jGet msg "roomId") with
           | some r => some r
           | none => user.roomId) with
    | none => exact (inferInstance : Decidable (user.roomId = none ∨ False))
    | some rid =>
      exact (inferInstance : Decidable (user.roomId = none ∨
        (rid ≠ [] ∧ crm = some rid ∧ user.roomId = some rid)))

/-- Room safety of one inbound transport frame: trivially true unless the
frame dispatches to `callReject` or `callAccept`, in which case the
corresponding guard must be room-safe. -/
def SafeData (h : Hub) (uid : Str) (d : ClientData) : Prop :=
  match d with
  | .malformed => True
  | .value msg =>
    match lookupUser h uid with
    | none => True
    | some user =>
      match jGetStr msg "type" with
      | none => True
      | some ty =>
        (msgTypeOf ty = .callReject → rejectSafe user msg) ∧
        (msgTypeOf ty = .callAccept → acceptSafe h user msg)

instance (h : Hub) (uid : Str) (d : ClientData) : Decidable (SafeData h uid d) := by
  unfold SafeData
  cases d with
  | malformed => exact (inferInstance : Decidable True)
  | value msg =>
    show Decidable (match lookupUser h uid with
      | none => True
      | some user =>
        match jGetStr msg "type" with
        | none => True
        | some ty =>
          (msgTypeOf ty = .callReject → rejectSafe user msg) ∧
          (msgTypeOf ty = .callAccept → acceptSafe h user msg))
    cases lookupUser h uid with
    | none => exact (inferInstance : Decidable True)
    | some user =>
      show Decidable (match jGetStr msg "type" with
        | none => True
        | some ty =>
          (msgTypeOf ty = .callReject → rejectSafe user msg) ∧
          (msgTypeOf ty = .callAccept → acceptSafe h user msg))
      cases jGetStr msg "type" with
      | none => exact (inferInstance : Decidable True)
      | some ty =>
        show Decidable ((msgTypeOf ty = .callReject → rejectSafe user msg) ∧
          (msgTypeOf ty = .callAccept → acceptSafe h user msg))
        infer_instance

theorem callerRoom_updUser (h : Hub) (uid : Str) (f : Session → Session) (msg : JVal)
    (hid : ∀ s, (f s).id = s.id) (hrm : ∀ s, (f s).roomId = s.roomId) :
    callerRoom (updUser h uid f) msg = callerRoom h msg := by
  unfold callerRoom
  cases jAsStr (jGet msg "from") with
  | none => rfl
  | some fstr =>
    by_cases hf : fstr = []
    · show (if fstr ≠ [] then (lookupUser (updUser h uid f) fstr).map Session.roomId
          else none) = (if fstr ≠ [] then (lookupUser h fstr).map Session.roomId else none)
      rw [if_neg (fun hc => hc hf), if_neg (fun hc => hc hf)]
    · show (if fstr ≠ [] then (lookupUser (updUser h uid f) fstr).map Session.roomId
          else none) = (if fstr ≠ [] then (lookupUser h fstr).map Session.roomId else none)
      rw [if_pos hf, if_pos hf]
      exact lookupUser_map_roomId_updUser h uid fstr f hid hrm

/-- Accept safety is stable under the rate-limit bucket update. -/
theorem acceptSafe_updRl (h : Hub) (uid : Str) (user : Session) (msg : JVal) (v : Option RL)
    (hsafe : acceptSafe h user msg) :
    acceptSafe (updUser h uid (fun s => { s with rl := v })) { user with rl := v } msg := by
  unfold acceptSafe at hsafe ⊢
  rw [callerRoom_updUser h uid (fun s => { s with rl := v }) msg (fun s => rfl)
    (fun s => rfl)]
  exact hsafe

/-- The whole inbound-frame handler preserves the invariant on room-safe
frames. -/
theorem hubInv_handleData (pe : Bool) (fresh : Str) (h : Hub) (uid : Str) (now : Nat)
    (d : ClientData) (hfresh : fresh ≠ []) (hsafe : SafeData h uid d) (hi : HubInv h) :
    HubInv (handleData pe fresh h uid now d).1 := by
  unfold handleData
  split
  · exact hi
  · rename_i user hlku
    dsimp only
    have hi1 : HubInv (updUser h uid
        (fun s => { s with rl := some (rateLimitStep user.rl now).1 })) :=
      hubInv_updUser h uid _ (fun s => rfl) (fun s => rfl) hi
    split
    · exact hi1
    · split
      · exact hi1
      · rename_i msg
        apply hubInv_dispatch pe fresh _ uid msg hfresh ?_ hi1
        intro user' ty' hlku' hty'
        have hlk1 : lookupUser (updUser h uid
            (fun s => { s with rl := some (rateLimitStep user.rl now).1 })) uid =
            some { user with rl := some (rateLimitStep user.rl now).1 } := by
          rw [lookupUser_updUser_self h uid
            (fun s => { s with rl := some (rateLimitStep user.rl now).1 }) (fun s => rfl)]
          rw [hlku]
          rfl
        rw [hlku'] at hlk1
        have huq : user' = { user with rl := some (rateLimitStep user.rl now).1 } :=
          Option.some.inj hlk1
        subst huq
        unfold SafeData at hsafe
        have hs1 : (match lookupUser h uid with
            | none => True
            | some u2 =>
              match jGetStr msg "type" with
              | none => True
              | some ty =>
                (msgTypeOf ty = MsgType.callReject → rejectSafe u2 msg) ∧
                (msgTypeOf ty = MsgType.callAccept → acceptSafe h u2 msg) : Prop) := hsafe
        rw [hlku] at hs1
        have hs2 : (match jGetStr msg "type" with
            | none => True
            | some ty =>
              (msgTypeOf ty = MsgType.callReject → rejectSafe user msg) ∧
              (msgTypeOf ty = MsgType.callAccept → acceptSafe h user msg) : Prop) := hs1
        rw [hty'] at hs2
        have hsafe' : (msgTypeOf ty' = .callReject → rejectSafe user msg) ∧
            (msgTypeOf ty' = .callAccept → acceptSafe h user msg) := hs2
        constructor
        · intro hmt
          exact hsafe'.1 hmt
        · intro hmt
          exact acceptSafe_updRl h uid user msg _ (hsafe'.2 hmt)

/-- C2: Room–session consistency. As literally stated the claim is false —
the `callAccept`/`callReject` mismatch branches clear the sender's
`roomId` while leaving its id in the room's member set
(`claim_C2_counterexample`). Amended form, proved here: the claimed
invariant, strengthened with the bookkeeping facts that make it inductive
(unique session and room keys, non-empty room ids, and membership of every
roomed session in its room — `HubInv`), is preserved by every inbound
frame whose `callReject`/`callAccept` guard is room-safe (`SafeData`:
every other message type is unconditionally safe) and by every
disconnect. -/
theorem claim_C2 (pe : Bool) (fresh : Str) (h : Hub) (uid cuid : Str) (now : Nat)
    (d : ClientData) (hfresh : fresh ≠ []) (hinv : HubInv h) (hsafe : SafeData h uid d) :
    (HubInv (handleData pe fresh h uid now d).1 ∧
      claimedRoomInv (handleData pe fresh h uid now d).1) ∧
    (HubInv (closeUser h cuid).1 ∧ claimedRoomInv (closeUser h cuid).1) := by
  have h1 := hubInv_handleData pe fresh h uid now d hfresh hsafe hinv
  have h2 := hubInv_closeUser h cuid hinv
  exact ⟨⟨h1, hubInv_claimed h1⟩, h2, hubInv_claimed h2⟩

/-- A room-safe inbound frame for the witness: a `callHangup` from Alice. -/
def wC2Msg : JVal := .obj [("type", .str (js "callHangup"))]

theorem claim_C2_witness :
    (js "f" ≠ [] ∧ HubInv cexC2Pre ∧ SafeData cexC2Pre (js "a") (.value wC2Msg)) ∧
    ((HubInv (handleData false (js "f") cexC2Pre (js "a") 0 (.value wC2Msg)).1 ∧
        claimedRoomInv (handleData false (js "f") cexC2Pre (js "a") 0 (.value wC2Msg)).1) ∧
      (HubInv (closeUser cexC2Pre (js "b")).1 ∧
        claimedRoomInv (closeUser cexC2Pre (js "b")).1)) :=
  ⟨⟨by decide, by decide, by decide⟩,
   claim_C2 false (js "f") cexC2Pre (js "a") (js "b") 0 (.value wC2Msg)
     (by decide) (by decide) (by decide)⟩
